import Mathlib

/-!
Verification development for the type-merging delegation engine of a
schema-stitching gateway (graphql-tools).  The definitions below are shallow
embeddings of the TypeScript source files:

  * packages/delegate/src/getMergedParent.ts        (merged-parent planner)
  * packages/delegate/src/externalObjects.ts        (external-object merge)
  * packages/delegate/src/defaultMergedResolver.ts  (default merged resolver)
  * packages/delegate/src/transforms/FilterToSchema.ts
  * packages/stitch/src/typeCandidates.ts
  * packages/stitching-directives/src/stitchingDirectivesValidator.ts
  * the Receiver class (streamed/deferred patch multiplexer)

JavaScript objects with string keys are modelled as ordered association lists
(JS objects preserve insertion order for string keys); object identity for
subschemas is modelled by a numeric id.  Machine-level concerns (promises,
microtasks) are modelled by the pure data flow of the corresponding functions.
-/

namespace GqlStitch

/-- Lookup in an ordered association list with string keys
(models JS property read `obj[key]`, `undefined` becoming `none`). -/
def lookupA {α : Type} : List (String × α) → String → Option α
  | [], _ => none
  | (k, v) :: rest, key => if k = key then some v else lookupA rest key

/-- Ordered upsert (models JS property write `obj[key] = v`: an existing key
keeps its position, a new key is appended at the end). -/
def upsertA {α : Type} : List (String × α) → String → α → List (String × α)
  | [], key, v => [(key, v)]
  | (k, w) :: rest, key, v =>
    if k = key then (k, v) :: rest else (k, w) :: upsertA rest key v

theorem lookupA_upsertA_self {α : Type} (m : List (String × α)) (k : String) (v : α) :
    lookupA (upsertA m k v) k = some v := by
  induction m with
  | nil => simp [upsertA, lookupA]
  | cons p rest ih =>
    obtain ⟨k1, w⟩ := p
    by_cases h : k1 = k
    · simp [upsertA, h, lookupA]
    · simp [upsertA, h, lookupA, ih]

theorem lookupA_upsertA_other {α : Type} (m : List (String × α)) (k k2 : String) (v : α)
    (h : k2 ≠ k) : lookupA (upsertA m k v) k2 = lookupA m k2 := by
  induction m with
  | nil =>
    simp only [upsertA, lookupA]
    exact if_neg (fun h2 => h h2.symm)
  | cons p rest ih =>
    obtain ⟨k1, w⟩ := p
    by_cases h1 : k1 = k
    · subst h1
      have hk : ¬ k1 = k2 := fun h2 => h h2.symm
      simp only [upsertA, if_pos rfl, lookupA, if_neg hk]
    · simp only [upsertA, if_neg h1, lookupA, ih]

/-! ## Data model shared by the delegate package

A subschema is identified by object identity in the source (`Map` keys,
`Array.includes`); we model identity with a numeric id.  A (transformed)
schema is modelled as its type map: type name to field map, a field map being
field name to the name of the field's named return type.  A type name absent
from the map stands for a non-composite (scalar/enum) type. -/

abbrev Subschema := Nat

abbrev SchemaEnv := List (String × List (String × String))

/-- A `GraphQLObjectType` reference: the schema it lives in plus its name
(fields of a type reference further types of the same schema). -/
abbrev TypeObj := SchemaEnv × String

/-- `type.getFields()`; an unknown type is modelled as having no fields. -/
def TypeObj.getFieldMap (t : TypeObj) : List (String × String) :=
  (lookupA t.1 t.2).getD []

/-- Argument values as they matter for the transforms: a variable reference or
an opaque constant. -/
inductive ValueM where
  | var (name : String)
  | const

/-- An argument node `name: value`. -/
structure ArgM where
  name : String
  value : ValueM

/-- GraphQL selections (field / inline fragment / fragment spread), as used by
the planner's key selection sets and by the request transforms.  `subsel =
none` models a field node without a selection set; `aliasName` stands for the
source's `alias` (a keyword in Lean). -/
inductive SelectionM where
  | field (name : String) (aliasName : Option String) (args : List ArgM)
      (subsel : Option (List SelectionM))
  | inlineFrag (typeCond : Option String) (subsel : List SelectionM)
  | spread (name : String)

mutual

/-- Size of one selection, for termination of selection-set recursions. -/
def SelectionM.size : SelectionM → Nat
  | .field _ _ _ none => 1
  | .field _ _ _ (some ss) => 1 + SelectionM.sizeList ss
  | .inlineFrag _ ss => 1 + SelectionM.sizeList ss
  | .spread _ => 1

/-- Total size of a selection list. -/
def SelectionM.sizeList : List SelectionM → Nat
  | [] => 0
  | s :: rest => SelectionM.size s + SelectionM.sizeList rest

end

theorem SelectionM.size_pos (s : SelectionM) : 0 < SelectionM.size s := by
  cases s with
  | field n a args sub => cases sub <;> simp [SelectionM.size]
  | inlineFrag c ss => simp [SelectionM.size]
  | spread n => simp [SelectionM.size]

/-! ## Merged-parent planner (packages/delegate/src/getMergedParent.ts)

`MergedTypeInfo` carries, per merged type, the per-subschema key selection
sets, computed-field selection sets, unique/non-unique field ownership, and —
for `subschemaTypesContainSelectionSet` — each subschema's transformed schema
(a property of the `Subschema` object in the source, carried here in the same
record for convenience). -/

structure MergedTypeInfoM where
  typeName : String
  selectionSets : Subschema → Option (List SelectionM)
  fieldSelectionSets : Subschema → Option (String → Option (List SelectionM))
  uniqueFields : String → Option Subschema
  nonUniqueFields : String → Option (List Subschema)
  transformedSchema : Subschema → SchemaEnv

/-- A requested field node as consumed by the planner (`name.value`,
`alias?.value`; `aliasName` stands for the source's `alias`). -/
structure FieldNode where
  name : String
  aliasName : Option String
deriving DecidableEq, Repr

/-- `fieldNode.alias?.value ?? fieldNode.name.value`. -/
def FieldNode.responseKey (fn : FieldNode) : String := fn.aliasName.getD fn.name

/-- `typesContainSelectionSet(types, selectionSet)` from getMergedParent.ts:
every field of the selection set must appear in at least one of the types,
recursively; note the source returns the recursive result directly from
inside the loop for a field carrying a selection set and for a matching
inline fragment. -/
def typesContainSelectionSet : List TypeObj → List SelectionM → Bool
  | _, [] => true
  | types, (SelectionM.field name _ _ subsel) :: rest =>
    let fields : List TypeObj :=
      types.filterMap (fun t => (lookupA t.getFieldMap name).map (fun ret => (t.1, ret)))
    if fields.isEmpty then false
    else
      match subsel with
      | some ss => typesContainSelectionSet fields ss
      | none => typesContainSelectionSet types rest
  | types, (SelectionM.inlineFrag typeCond ss) :: rest =>
    if typeCond.isSome ∧ typeCond = (types.head?.map Prod.snd) then
      typesContainSelectionSet types ss
    else typesContainSelectionSet types rest
  | types, (SelectionM.spread _) :: rest => typesContainSelectionSet types rest
termination_by _ sels => SelectionM.sizeList sels
decreasing_by
  all_goals simp_arith [SelectionM.sizeList, SelectionM.size]

/-- `subschemaTypesContainSelectionSet`: looks the merged type up in each
source subschema's transformed schema (the one-subschema overload of the
source is the singleton-list case). -/
def subschemaTypesContainSelectionSet (mti : MergedTypeInfoM)
    (sourceSubschemas : List Subschema) (selectionSet : List SelectionM) : Bool :=
  typesContainSelectionSet
    (sourceSubschemas.map (fun s => ((mti.transformedSchema s, mti.typeName) : TypeObj)))
    selectionSet

/-- One step of `sortSubschemasByProxiability`'s `targetSubschemas.forEach`:
push the target onto the proxiable or the non-proxiable list. -/
def sortStep (mti : MergedTypeInfoM) (sourceSubschemas : List Subschema)
    (fieldNodes : List FieldNode) (acc : List Subschema × List Subschema)
    (t : Subschema) : List Subschema × List Subschema :=
  let selOk : Bool :=
    match mti.selectionSets t with
    | some ss => subschemaTypesContainSelectionSet mti sourceSubschemas ss
    | none => true
  if ¬ selOk then (acc.1, acc.2 ++ [t])
  else
    let fieldOk : Bool :=
      match mti.fieldSelectionSets t with
      | none => true
      | some fss =>
        fieldNodes.all (fun fn =>
          match fss fn.name with
          | none => true
          | some fs => subschemaTypesContainSelectionSet mti sourceSubschemas fs)
    if fieldOk then (acc.1 ++ [t], acc.2) else (acc.1, acc.2 ++ [t])

/-- `sortSubschemasByProxiability(mergedTypeInfo, sourceSubschemas,
targetSubschemas, fieldNodes)`: partition the target subschemas into
`(proxiableSubschemas, nonProxiableSubschemas)`. -/
def sortSubschemasByProxiability (mti : MergedTypeInfoM)
    (sourceSubschemas : List Subschema) (targetSubschemas : List Subschema)
    (fieldNodes : List FieldNode) : List Subschema × List Subschema :=
  targetSubschemas.foldl (sortStep mti sourceSubschemas fieldNodes) ([], [])

/-- Result of `buildDelegationPlan`: the delegation map (insertion-ordered, as
a JS `Map`), the proxiable and the unproxiable field nodes. -/
structure DelegationPlan where
  delegationMap : List (Subschema × List FieldNode)
  proxiableFieldNodes : List FieldNode
  unproxiableFieldNodes : List FieldNode

/-- Append a field node to a subschema's bucket in the delegation map
(`delegationMap.get(s).push(fieldNode)` / `delegationMap.set(s, [fieldNode])`). -/
def delegationPush (m : List (Subschema × List FieldNode)) (s : Subschema)
    (fn : FieldNode) : List (Subschema × List FieldNode) :=
  if (m.lookup s).isSome then
    m.map (fun p => if p.1 = s then (p.1, p.2 ++ [fn]) else p)
  else m ++ [(s, [fn])]

/-- One iteration of `buildDelegationPlan`'s `fieldNodes.forEach`. -/
def buildPlanStep (mti : MergedTypeInfoM) (proxiableSubschemas : List Subschema)
    (st : DelegationPlan) (fn : FieldNode) : DelegationPlan :=
  if fn.name = "__typename" then st
  else
    match mti.uniqueFields fn.name with
    | some uniqueSubschema =>
      if ¬ proxiableSubschemas.contains uniqueSubschema then
        { st with unproxiableFieldNodes := st.unproxiableFieldNodes ++ [fn] }
      else
        { st with
          proxiableFieldNodes := st.proxiableFieldNodes ++ [fn]
          delegationMap := delegationPush st.delegationMap uniqueSubschema fn }
    | none =>
      match mti.nonUniqueFields fn.name with
      | none => { st with unproxiableFieldNodes := st.unproxiableFieldNodes ++ [fn] }
      | some nonUniqueSubschemas =>
        match nonUniqueSubschemas.filter (fun s => proxiableSubschemas.contains s) with
        | [] => { st with unproxiableFieldNodes := st.unproxiableFieldNodes ++ [fn] }
        | s0 :: restFiltered =>
          let filtered := s0 :: restFiltered
          let st2 := { st with proxiableFieldNodes := st.proxiableFieldNodes ++ [fn] }
          match filtered.find? (fun s => (st.delegationMap.lookup s).isSome) with
          | some existing =>
            { st2 with delegationMap := delegationPush st.delegationMap existing fn }
          | none =>
            { st2 with delegationMap := delegationPush st.delegationMap s0 fn }

/-- `buildDelegationPlan(mergedTypeInfo, fieldNodes, proxiableSubschemas)`. -/
def buildDelegationPlan (mti : MergedTypeInfoM) (fieldNodes : List FieldNode)
    (proxiableSubschemas : List Subschema) : DelegationPlan :=
  fieldNodes.foldl (buildPlanStep mti proxiableSubschemas) ⟨[], [], []⟩

theorem sortStep_length (mti : MergedTypeInfoM) (srcs : List Subschema)
    (fns : List FieldNode) (acc : List Subschema × List Subschema) (t : Subschema) :
    (sortStep mti srcs fns acc t).1.length + (sortStep mti srcs fns acc t).2.length
      = acc.1.length + acc.2.length + 1 := by
  unfold sortStep
  split
  all_goals dsimp only
  all_goals split_ifs
  all_goals simp
  all_goals omega

theorem sortFold_length (mti : MergedTypeInfoM) (srcs : List Subschema)
    (fns : List FieldNode) :
    ∀ (targets : List Subschema) (acc : List Subschema × List Subschema),
      ((targets.foldl (sortStep mti srcs fns) acc).1.length
        + (targets.foldl (sortStep mti srcs fns) acc).2.length)
        = acc.1.length + acc.2.length + targets.length := by
  intro targets
  induction targets with
  | nil => simp
  | cons t ts ih =>
    intro acc
    simp only [List.foldl_cons, List.length_cons]
    rw [ih, sortStep_length]
    omega

/-- `sortSubschemasByProxiability` partitions the target subschemas: each
target lands on exactly one side. -/
theorem sortSubschemasByProxiability_partition (mti : MergedTypeInfoM)
    (srcs targets : List Subschema) (fns : List FieldNode) :
    (sortSubschemasByProxiability mti srcs targets fns).1.length
      + (sortSubschemasByProxiability mti srcs targets fns).2.length
      = targets.length := by
  unfold sortSubschemasByProxiability
  simpa using sortFold_length mti srcs fns targets ([], [])

theorem delegationPush_mem (m : List (Subschema × List FieldNode)) (s : Subschema)
    (fn : FieldNode) :
    ∀ p ∈ delegationPush m s fn, p.1 = s ∨ p.1 ∈ m.map Prod.fst := by
  intro p hp
  unfold delegationPush at hp
  split at hp
  · right
    obtain ⟨q, hq, hpq⟩ := List.mem_map.mp hp
    by_cases hqs : q.1 = s
    · simp only [if_pos hqs] at hpq
      subst hpq
      exact List.mem_map.mpr ⟨q, hq, rfl⟩
    · simp only [if_neg hqs] at hpq
      subst hpq
      exact List.mem_map.mpr ⟨q, hq, rfl⟩
  · rcases List.mem_append.mp hp with h1 | h1
    · exact Or.inr (List.mem_map.mpr ⟨p, h1, rfl⟩)
    · left
      simp only [List.mem_singleton] at h1
      subst h1
      rfl

theorem buildPlanStep_keys (mti : MergedTypeInfoM) (prox : List Subschema)
    (st : DelegationPlan) (fn : FieldNode)
    (hst : ∀ p ∈ st.delegationMap, p.1 ∈ prox) :
    ∀ p ∈ (buildPlanStep mti prox st fn).delegationMap, p.1 ∈ prox := by
  intro p hp
  unfold buildPlanStep at hp
  split at hp
  · exact hst p hp
  · split at hp
    case h_1 us hus =>
      split at hp
      · exact hst p hp
      · rename_i hcontains
        simp only at hp
        rcases delegationPush_mem _ _ _ p hp with h1 | h1
        · rw [h1]
          rw [Decidable.not_not] at hcontains
          simpa using hcontains
        · obtain ⟨q, hq, hpq⟩ := List.mem_map.mp h1
          exact hpq ▸ hst q hq
    case h_2 =>
      split at hp
      · exact hst p hp
      · rename_i nus hnus
        split at hp
        · exact hst p hp
        · rename_i s0 restF hfilter
          have hsub : ∀ x ∈ s0 :: restF, x ∈ prox := by
            intro x hx
            rw [← hfilter] at hx
            have := List.mem_filter.mp hx
            simpa using this.2
          dsimp only at hp
          split at hp
          · rename_i existing hfind
            simp only at hp
            rcases delegationPush_mem _ _ _ p hp with h1 | h1
            · exact h1 ▸ hsub existing (List.mem_of_find?_eq_some hfind)
            · obtain ⟨q, hq, hpq⟩ := List.mem_map.mp h1
              exact hpq ▸ hst q hq
          · simp only at hp
            rcases delegationPush_mem _ _ _ p hp with h1 | h1
            · exact h1 ▸ hsub s0 (List.mem_cons_self _ _)
            · obtain ⟨q, hq, hpq⟩ := List.mem_map.mp h1
              exact hpq ▸ hst q hq

theorem buildPlan_keys (mti : MergedTypeInfoM) (prox : List Subschema) :
    ∀ (fns : List FieldNode) (st : DelegationPlan),
      (∀ p ∈ st.delegationMap, p.1 ∈ prox) →
      ∀ p ∈ (fns.foldl (buildPlanStep mti prox) st).delegationMap, p.1 ∈ prox := by
  intro fns
  induction fns with
  | nil => intro st hst; simpa using hst
  | cons fn rest ih =>
    intro st hst
    simp only [List.foldl_cons]
    exact ih _ (buildPlanStep_keys mti prox st fn hst)

/-- A non-empty delegation map forces a non-empty proxiable-subschema list
(every delegation-map key is proxiable). -/
theorem buildDelegationPlan_nonempty_prox (mti : MergedTypeInfoM)
    (fns : List FieldNode) (prox : List Subschema)
    (h : (buildDelegationPlan mti fns prox).delegationMap ≠ []) : prox ≠ [] := by
  intro hprox
  subst hprox
  apply h
  have hkeys := buildPlan_keys mti [] fns ⟨[], [], []⟩ (by simp)
  unfold buildDelegationPlan
  exact List.eq_nil_iff_forall_not_mem.mpr (fun p hp => by simpa using hkeys p hp)

theorem buildPlanStep_unprox (mti : MergedTypeInfoM) (prox : List Subschema)
    (st : DelegationPlan) (fn : FieldNode) :
    (buildPlanStep mti prox st fn).unproxiableFieldNodes = st.unproxiableFieldNodes
    ∨ (buildPlanStep mti prox st fn).unproxiableFieldNodes
        = st.unproxiableFieldNodes ++ [fn] := by
  unfold buildPlanStep
  dsimp only
  repeat' split
  all_goals first
    | exact Or.inl rfl
    | exact Or.inr rfl

theorem buildPlan_unprox_length (mti : MergedTypeInfoM) (prox : List Subschema) :
    ∀ (fns : List FieldNode) (st : DelegationPlan),
      ((fns.foldl (buildPlanStep mti prox) st).unproxiableFieldNodes).length
        ≤ st.unproxiableFieldNodes.length + fns.length := by
  intro fns
  induction fns with
  | nil => intro st; simp
  | cons fn rest ih =>
    intro st
    simp only [List.foldl_cons, List.length_cons]
    have h1 := ih (buildPlanStep mti prox st fn)
    rcases buildPlanStep_unprox mti prox st fn with h2 | h2
    · rw [h2] at h1
      omega
    · rw [h2] at h1
      simp only [List.length_append, List.length_singleton] at h1
      omega

/-- The unproxiable field nodes of a delegation plan never outnumber the field
nodes the plan was built from. -/
theorem buildDelegationPlan_unprox_le (mti : MergedTypeInfoM)
    (fns : List FieldNode) (prox : List Subschema) :
    (buildDelegationPlan mti fns prox).unproxiableFieldNodes.length ≤ fns.length := by
  have := buildPlan_unprox_length mti prox fns ⟨[], [], []⟩
  simpa using this

/-- One round of `getMergedParentsFromFieldNodes`: its input field nodes, the
proxiability partition, and the delegation plan. -/
structure RoundPlan where
  fieldNodes : List FieldNode
  proxiableSubschemas : List Subschema
  nonProxiableSubschemas : List Subschema
  plan : DelegationPlan

theorem sort_snd_lt (mti : MergedTypeInfoM) (srcs targets : List Subschema)
    (fns : List FieldNode)
    (h : (buildDelegationPlan mti fns
        (sortSubschemasByProxiability mti srcs targets fns).1).delegationMap ≠ []) :
    (sortSubschemasByProxiability mti srcs targets fns).2.length < targets.length := by
  have h1 := buildDelegationPlan_nonempty_prox mti fns _ h
  have h2 := sortSubschemasByProxiability_partition mti srcs targets fns
  have h3 : 0 < (sortSubschemasByProxiability mti srcs targets fns).1.length :=
    List.length_pos.mpr h1
  omega

/-- The recursion skeleton of `getMergedParentsFromFieldNodes`: the sequence
of planner rounds.  The source recurses (via `promise.then`) exactly when the
delegation map is non-empty, with sources extended by the proxiable
subschemas, targets narrowed to the non-proxiable ones, and the unproxiable
field nodes as the next round's field nodes.  This definition being accepted
by Lean is itself the termination argument (measure: number of remaining
target subschemas). -/
def plannerRounds (mti : MergedTypeInfoM) (sourceSubschemas : List Subschema)
    (targetSubschemas : List Subschema) (fieldNodes : List FieldNode) :
    List RoundPlan :=
  if fieldNodes.isEmpty then []
  else
    let sorted := sortSubschemasByProxiability mti sourceSubschemas targetSubschemas fieldNodes
    let plan := buildDelegationPlan mti fieldNodes sorted.1
    let r : RoundPlan := ⟨fieldNodes, sorted.1, sorted.2, plan⟩
    if h : plan.delegationMap = [] then [r]
    else
      r :: plannerRounds mti (sourceSubschemas ++ sorted.1) sorted.2
        plan.unproxiableFieldNodes
termination_by targetSubschemas.length
decreasing_by
  exact sort_snd_lt mti sourceSubschemas targetSubschemas fieldNodes h

/-- `mergedParentMap` as built when the delegation map is empty: every
unproxiable field node's response key resolves to the (unchanged) parent
object. -/
def mergedParentMapOnEmptyPlan {α : Type} (object : α)
    (unproxiableFieldNodes : List FieldNode) : List (String × α) :=
  unproxiableFieldNodes.foldl (fun m fn => upsertA m fn.responseKey object) []

theorem lookup_fold_const {α : Type} (object : α) :
    ∀ (l : List FieldNode) (acc : List (String × α)) (key : String),
      lookupA (l.foldl (fun m fn => upsertA m fn.responseKey object) acc) key
        = if key ∈ l.map FieldNode.responseKey then some object else lookupA acc key := by
  intro l
  induction l with
  | nil => intro acc key; simp
  | cons fn rest ih =>
    intro acc key
    simp only [List.foldl_cons, List.map_cons]
    rw [ih]
    by_cases hmem : key ∈ rest.map FieldNode.responseKey
    · simp [hmem]
    · rw [if_neg hmem]
      by_cases hk : key = fn.responseKey
      · rw [hk, lookupA_upsertA_self, if_pos (by simp)]
      · rw [lookupA_upsertA_other _ _ _ _ hk, if_neg (by simp [List.mem_cons, hk, hmem])]

theorem mergedParentMapOnEmptyPlan_lookup {α : Type} (object : α)
    (unprox : List FieldNode) (fn : FieldNode) (hfn : fn ∈ unprox) :
    lookupA (mergedParentMapOnEmptyPlan object unprox) fn.responseKey = some object := by
  unfold mergedParentMapOnEmptyPlan
  rw [lookup_fold_const]
  simp only [if_pos (List.mem_map.mpr ⟨fn, hfn, rfl⟩)]

/-- Chaining of consecutive planner rounds: each later round's input field
nodes are exactly the previous round's unproxiable field nodes. -/
def chainedRounds : List RoundPlan → Bool
  | [] => true
  | [_] => true
  | r1 :: r2 :: rest =>
    (r2.fieldNodes == r1.plan.unproxiableFieldNodes) && chainedRounds (r2 :: rest)

theorem plannerRounds_length_le (mti : MergedTypeInfoM) :
    ∀ (n : Nat) (targets : List Subschema), targets.length ≤ n →
      ∀ (srcs : List Subschema) (fns : List FieldNode),
        (plannerRounds mti srcs targets fns).length ≤ targets.length + 1 := by
  intro n
  induction n with
  | zero =>
    intro targets htargets srcs fns
    rw [plannerRounds]
    split
    · simp
    · dsimp only
      split
      · simp
      · rename_i hne
        exfalso
        have := sort_snd_lt mti srcs targets fns hne
        omega
  | succ n ih =>
    intro targets htargets srcs fns
    rw [plannerRounds]
    split
    · simp
    · dsimp only
      split
      · simp
      · rename_i hne
        have hlt := sort_snd_lt mti srcs targets fns hne
        have hrec := ih (sortSubschemasByProxiability mti srcs targets fns).2
          (by omega) (srcs ++ (sortSubschemasByProxiability mti srcs targets fns).1)
          (buildDelegationPlan mti fns
            (sortSubschemasByProxiability mti srcs targets fns).1).unproxiableFieldNodes
        simp only [List.length_cons]
        omega

theorem plannerRounds_unprox_le (mti : MergedTypeInfoM) :
    ∀ (n : Nat) (targets : List Subschema), targets.length ≤ n →
      ∀ (srcs : List Subschema) (fns : List FieldNode),
        ∀ r ∈ plannerRounds mti srcs targets fns,
          r.plan.unproxiableFieldNodes.length ≤ r.fieldNodes.length := by
  intro n
  induction n with
  | zero =>
    intro targets htargets srcs fns r hr
    rw [plannerRounds] at hr
    split at hr
    · simp at hr
    · dsimp only at hr
      split at hr
      · simp at hr
        subst hr
        exact buildDelegationPlan_unprox_le mti fns _
      · rename_i hne
        exfalso
        have := sort_snd_lt mti srcs targets fns hne
        omega
  | succ n ih =>
    intro targets htargets srcs fns r hr
    rw [plannerRounds] at hr
    split at hr
    · simp at hr
    · dsimp only at hr
      split at hr
      · simp at hr
        subst hr
        exact buildDelegationPlan_unprox_le mti fns _
      · rename_i hne
        have hlt := sort_snd_lt mti srcs targets fns hne
        rcases List.mem_cons.mp hr with h1 | h1
        · subst h1
          exact buildDelegationPlan_unprox_le mti fns _
        · exact ih _ (by omega) _ _ r h1

theorem plannerRounds_head_fieldNodes (mti : MergedTypeInfoM)
    (srcs targets : List Subschema) (fns : List FieldNode)
    (r : RoundPlan) (rest : List RoundPlan)
    (h : plannerRounds mti srcs targets fns = r :: rest) : r.fieldNodes = fns := by
  rw [plannerRounds] at h
  split at h
  · simp at h
  · dsimp only at h
    split at h
    · rw [List.cons.injEq] at h
      rw [← h.1]
    · rw [List.cons.injEq] at h
      rw [← h.1]

theorem chainedRounds_cons (r : RoundPlan) (rounds : List RoundPlan)
    (h1 : chainedRounds rounds = true)
    (h2 : ∀ r2 rest2, rounds = r2 :: rest2 →
        r2.fieldNodes = r.plan.unproxiableFieldNodes) :
    chainedRounds (r :: rounds) = true := by
  cases rounds with
  | nil => rfl
  | cons r2 rest2 =>
    simp only [chainedRounds, Bool.and_eq_true, beq_iff_eq]
    exact ⟨h2 r2 rest2 rfl, h1⟩

theorem plannerRounds_chained (mti : MergedTypeInfoM) :
    ∀ (n : Nat) (targets : List Subschema), targets.length ≤ n →
      ∀ (srcs : List Subschema) (fns : List FieldNode),
        chainedRounds (plannerRounds mti srcs targets fns) = true := by
  intro n
  induction n with
  | zero =>
    intro targets htargets srcs fns
    rw [plannerRounds]
    split
    · rfl
    · dsimp only
      split
      · rfl
      · rename_i hne
        exfalso
        have := sort_snd_lt mti srcs targets fns hne
        omega
  | succ n ih =>
    intro targets htargets srcs fns
    rw [plannerRounds]
    split
    · rfl
    · dsimp only
      split
      · rfl
      · rename_i hne
        have hlt := sort_snd_lt mti srcs targets fns hne
        have hrec := ih (sortSubschemasByProxiability mti srcs targets fns).2 (by omega)
          (srcs ++ (sortSubschemasByProxiability mti srcs targets fns).1)
          (buildDelegationPlan mti fns
            (sortSubschemasByProxiability mti srcs targets fns).1).unproxiableFieldNodes
        exact chainedRounds_cons _ _ hrec
          (fun r2 rest2 heq => plannerRounds_head_fieldNodes _ _ _ _ _ _ heq)

theorem plannerRounds_inner_nonempty (mti : MergedTypeInfoM) :
    ∀ (n : Nat) (targets : List Subschema), targets.length ≤ n →
      ∀ (srcs : List Subschema) (fns : List FieldNode),
        ∀ r ∈ (plannerRounds mti srcs targets fns).dropLast,
          r.plan.delegationMap ≠ [] := by
  intro n
  induction n with
  | zero =>
    intro targets htargets srcs fns r hr
    rw [plannerRounds] at hr
    split at hr
    · simp at hr
    · dsimp only at hr
      split at hr
      · simp at hr
      · rename_i hne
        exfalso
        have := sort_snd_lt mti srcs targets fns hne
        omega
  | succ n ih =>
    intro targets htargets srcs fns r hr
    rw [plannerRounds] at hr
    split at hr
    · simp at hr
    · dsimp only at hr
      split at hr
      · simp at hr
      · rename_i hne
        have hlt := sort_snd_lt mti srcs targets fns hne
        rcases hrest : plannerRounds mti
            (srcs ++ (sortSubschemasByProxiability mti srcs targets fns).1)
            (sortSubschemasByProxiability mti srcs targets fns).2
            (buildDelegationPlan mti fns
              (sortSubschemasByProxiability mti srcs targets fns).1).unproxiableFieldNodes
          with _ | ⟨r2, rest2⟩
        · rw [hrest] at hr
          simp at hr
        · rw [hrest] at hr
          rw [List.dropLast_cons_of_ne_nil (by simp)] at hr
          rcases List.mem_cons.mp hr with h1 | h1
          · subst h1
            exact hne
          · have hih := ih (sortSubschemasByProxiability mti srcs targets fns).2 (by omega)
              (srcs ++ (sortSubschemasByProxiability mti srcs targets fns).1)
              (buildDelegationPlan mti fns
                (sortSubschemasByProxiability mti srcs targets fns).1).unproxiableFieldNodes r
            rw [hrest] at hih
            exact hih h1


/-- C1: the merged-parent planner terminates on every input: in each round of
`getMergedParentsFromFieldNodes`, either the delegation map is empty and the
recursion stops — every unproxiable field node's response key resolving to the
parent object unchanged — or the unproxiable field nodes passed on to the next
round (which are exactly the next round's input field nodes) never outnumber
the current round's field nodes, and there are only finitely many rounds
(at most one more than the number of target subschemas). -/
theorem getMergedParentsFromFieldNodes_terminates (mti : MergedTypeInfoM)
    (sourceSubschemas targetSubschemas : List Subschema)
    (fieldNodes : List FieldNode) :
    (plannerRounds mti sourceSubschemas targetSubschemas fieldNodes).length
        ≤ targetSubschemas.length + 1
    ∧ (∀ r ∈ plannerRounds mti sourceSubschemas targetSubschemas fieldNodes,
        r.plan.unproxiableFieldNodes.length ≤ r.fieldNodes.length)
    ∧ chainedRounds (plannerRounds mti sourceSubschemas targetSubschemas fieldNodes) = true
    ∧ (∀ r ∈ (plannerRounds mti sourceSubschemas targetSubschemas fieldNodes).dropLast,
        r.plan.delegationMap ≠ [])
    ∧ (∀ r ∈ plannerRounds mti sourceSubschemas targetSubschemas fieldNodes,
        r.plan.delegationMap = [] →
        ∀ fn ∈ r.plan.unproxiableFieldNodes, ∀ (α : Type) (object : α),
          lookupA (mergedParentMapOnEmptyPlan object r.plan.unproxiableFieldNodes)
            fn.responseKey = some object) := by
  refine ⟨?_, ?_, ?_, ?_, ?_⟩
  · exact plannerRounds_length_le mti targetSubschemas.length targetSubschemas
      (Nat.le_refl _) sourceSubschemas fieldNodes
  · exact plannerRounds_unprox_le mti targetSubschemas.length targetSubschemas
      (Nat.le_refl _) sourceSubschemas fieldNodes
  · exact plannerRounds_chained mti targetSubschemas.length targetSubschemas
      (Nat.le_refl _) sourceSubschemas fieldNodes
  · exact plannerRounds_inner_nonempty mti targetSubschemas.length targetSubschemas
      (Nat.le_refl _) sourceSubschemas fieldNodes
  · intro r _ _ fn hfn α object
    exact mergedParentMapOnEmptyPlan_lookup object _ fn hfn

/-- A miniature concrete merged-type configuration: type `T` with field `a`
unique to subschema 1 and field `b` served by nobody, subschema 1 requiring
key selection `id` which source subschema 0 provides. -/
def mtiWitness : MergedTypeInfoM where
  typeName := "T"
  selectionSets := fun s =>
    if s = 1 then some [SelectionM.field "id" none [] none] else none
  fieldSelectionSets := fun _ => none
  uniqueFields := fun f => if f = "a" then some 1 else none
  nonUniqueFields := fun _ => none
  transformedSchema := fun s =>
    if s = 0 then [("T", [("id", "ID")])] else [("T", [("id", "ID"), ("a", "String")])]

theorem getMergedParentsFromFieldNodes_terminates_witness :
    (plannerRounds mtiWitness [0] [1]
        [⟨"a", none⟩, ⟨"b", none⟩]).length ≤ 2
    ∧ chainedRounds (plannerRounds mtiWitness [0] [1]
        [⟨"a", none⟩, ⟨"b", none⟩]) = true := by
  have h := getMergedParentsFromFieldNodes_terminates mtiWitness [0] [1]
    [⟨"a", none⟩, ⟨"b", none⟩]
  exact ⟨h.1, h.2.2.1⟩

/-! ## External objects (packages/delegate/src/externalObjects.ts)

Data values are modelled by `JValue`; GraphQL errors carry a message and an
optional path.  The three hidden symbol annotations are record fields, with
`none` standing for an absent (`undefined`) property, as on the plain "null
result" objects synthesized for error and null sources.  Entries of the
field-subschema map can themselves be `undefined`, hence `Option Subschema`
values. -/

inductive PathSeg where
  | str (s : String)
  | idx (n : Nat)
deriving DecidableEq, Repr

structure GQLError where
  message : String
  path : Option (List PathSeg)
deriving DecidableEq, Repr

/-- `relocatedError(originalError, path)` (@graphql-tools/utils, an external
collaborator of this package): the same error with its path replaced. -/
def relocatedError (e : GQLError) (path : List PathSeg) : GQLError :=
  { e with path := some path }

/-- `locatedError(error, nodes, path)` (graphql-js, an external collaborator):
wraps a raw error as a GraphQL error located at the given path. -/
def locatedError (message : String) (path : List PathSeg) : GQLError :=
  { message := message, path := some path }

inductive JValue where
  | vnull
  | scalar (s : String)
  | obj (fields : List (String × JValue))
  | arr (elems : List JValue)
  | errValue (e : GQLError)

mutual

def JValue.size : JValue → Nat
  | .obj fields => 1 + JValue.sizeFields fields
  | .arr elems => 1 + JValue.sizeElems elems
  | _ => 1

def JValue.sizeFields : List (String × JValue) → Nat
  | [] => 0
  | (_, v) :: rest => JValue.size v + JValue.sizeFields rest

def JValue.sizeElems : List JValue → Nat
  | [] => 0
  | v :: rest => JValue.size v + JValue.sizeElems rest

end

theorem JValue.size_positive (v : JValue) : 0 < JValue.size v := by
  cases v <;> simp_arith [JValue.size]

/-- Modelled from the spec: `mergeDeep` of @graphql-tools/utils (whose source
is not part of this repository), restricted to the object-to-object top-level
merge used by `mergeExternalObjects`: for every leaf key present in both
sides the later source wins, intermediate objects are merged recursively,
arrays are replaced (not concatenated). -/
def mergeDeepFields (t : List (String × JValue)) :
    List (String × JValue) → List (String × JValue)
  | [] => t
  | (k, v) :: rest =>
    let newVal : JValue :=
      match lookupA t k, v with
      | some (JValue.obj oldFields), JValue.obj vFields =>
        JValue.obj (mergeDeepFields oldFields vFields)
      | _, _ => v
    mergeDeepFields (upsertA t k newVal) rest
termination_by l => JValue.sizeFields l
decreasing_by
  all_goals simp_arith [JValue.sizeFields, JValue.size]
  all_goals exact JValue.size_positive _

/-- An external object: its (own enumerable) data keys plus the three
symbol-keyed annotations. -/
structure ExternalObjectM where
  data : List (String × JValue)
  objectSubschema : Option Subschema
  fieldSubschemaMap : Option (List (String × Option Subschema))
  unpathedErrors : Option (List GQLError)

/-- `isExternalObject(data)`: the unpathed-errors annotation is defined. -/
def isExternalObject (o : ExternalObjectM) : Bool :=
  o.unpathedErrors.isSome

/-- `annotateExternalObject(object, errors, subschema)`. -/
def annotateExternalObject (object : List (String × JValue)) (errors : List GQLError)
    (subschema : Option Subschema) : ExternalObjectM :=
  { data := object
    objectSubschema := subschema
    fieldSubschemaMap := some []
    unpathedErrors := some errors }

/-- `getSubschema(object, responseKey)`:
`object[FIELD_SUBSCHEMA_MAP_SYMBOL][responseKey] ?? object[OBJECT_SUBSCHEMA_SYMBOL]`
(an entry stored as `undefined` falls through to the origin subschema; the
map annotation is present on every annotated external object). -/
def getSubschema (object : ExternalObjectM) (responseKey : String) : Option Subschema :=
  match lookupA (object.fieldSubschemaMap.getD []) responseKey with
  | some (some s) => some s
  | _ => object.objectSubschema

/-- `getUnpathedErrors(object)`. -/
def getUnpathedErrors (object : ExternalObjectM) : List GQLError :=
  object.unpathedErrors.getD []

/-- graphql-js `collectFields` as invoked by `mergeExternalObjects` (empty
fragment map and variable values, no directives, object runtime types):
group the field nodes of a selection set by response key, in collection
order; an inline fragment applies when it has no type condition or its
condition names the runtime type; fragment spreads find no fragment in the
empty fragment map and are skipped. -/
def collectFieldsM (typeName : String) (acc : List (String × List SelectionM)) :
    List SelectionM → List (String × List SelectionM)
  | [] => acc
  | (SelectionM.field name aliasName args subsel) :: rest =>
    let key := aliasName.getD name
    let entry := SelectionM.field name aliasName args subsel
    let acc2 :=
      match lookupA acc key with
      | some group => upsertA acc key (group ++ [entry])
      | none => upsertA acc key [entry]
    collectFieldsM typeName acc2 rest
  | (SelectionM.inlineFrag typeCond sub) :: rest =>
    if typeCond = none ∨ typeCond = some typeName then
      collectFieldsM typeName (collectFieldsM typeName acc sub) rest
    else collectFieldsM typeName acc rest
  | (SelectionM.spread _) :: rest => collectFieldsM typeName acc rest
termination_by sels => SelectionM.sizeList sels
decreasing_by
  all_goals simp only [SelectionM.sizeList]
  all_goals first
    | exact Nat.lt_add_of_pos_left (SelectionM.size_pos _)
    | (simp only [SelectionM.size]
       omega)

/-- A source entry of `mergeExternalObjects`: a `GraphQLError`, another
`Error`, `null`, or an external object. -/
inductive SourceValue where
  | gqlError (e : GQLError)
  | jsError (message : String)
  | nullValue
  | extObj (o : ExternalObjectM)

/-- The synthesized "null result" for an error or null source (the
`nullResult` object of `mergeExternalObjects`): one entry per collected
response key, holding the relocated error (`GraphQLError` source), the
located error (other `Error` source), or `null`. -/
def nullResultFor (path : List PathSeg) (typeName : String)
    (source : SourceValue) (selectionSet : List SelectionM) : List (String × JValue) :=
  let fieldNodes := collectFieldsM typeName [] selectionSet
  fieldNodes.foldl (fun acc p =>
    match source with
    | SourceValue.gqlError e =>
      upsertA acc p.1 (JValue.errValue (relocatedError e (path ++ [PathSeg.str p.1])))
    | SourceValue.jsError msg =>
      upsertA acc p.1 (JValue.errValue (locatedError msg (path ++ [PathSeg.str p.1])))
    | _ => upsertA acc p.1 JValue.vnull) []

/-- The `results` entry a source contributes to `mergeExternalObjects`: error
and null sources are replaced by their (unannotated) null result, every other
source passes through unchanged. -/
def expectedResult (path : List PathSeg) (typeName : String)
    (p : SourceValue × List SelectionM) : ExternalObjectM :=
  match p.1 with
  | SourceValue.extObj o => o
  | src =>
    { data := nullResultFor path typeName src p.2
      objectSubschema := none
      fieldSubschemaMap := none
      unpathedErrors := none }

/-- One iteration of the `sources.forEach` loop of `mergeExternalObjects`. -/
def mergeResultsStep (path : List PathSeg) (typeName : String)
    (acc : List ExternalObjectM × List GQLError)
    (p : SourceValue × List SelectionM) : List ExternalObjectM × List GQLError :=
  match p.1 with
  | SourceValue.extObj o => (acc.1 ++ [o], acc.2 ++ o.unpathedErrors.getD [])
  | _ => (acc.1 ++ [expectedResult path typeName p], acc.2)

/-- The `sources.forEach` loop of `mergeExternalObjects`: builds the
`results` array and concatenates the unpathed errors of the pass-through
sources. -/
def mergeResults (path : List PathSeg) (typeName : String)
    (pairs : List (SourceValue × List SelectionM)) :
    List ExternalObjectM × List GQLError :=
  pairs.foldl (mergeResultsStep path typeName) ([], [])

/-- One step of the field-subschema-map rebuild of `mergeExternalObjects`:
for each data key of a result, the new provenance is the result's
field-subschema-map entry if defined, else the result's origin subschema. -/
def fieldSubschemaMapStep (m : List (String × Option Subschema))
    (source : ExternalObjectM) : List (String × Option Subschema) :=
  match source.fieldSubschemaMap with
  | none =>
    source.data.foldl (fun m2 kv => upsertA m2 kv.1 source.objectSubschema) m
  | some fsm =>
    source.data.foldl (fun m2 kv =>
      upsertA m2 kv.1
        (match lookupA fsm kv.1 with
         | some (some s) => some s
         | _ => source.objectSubschema)) m

/-- `mergeExternalObjects(schema, path, typeName, target, sources,
selectionSets)` (the `schema` argument only feeds `collectFields`, which is
modelled without it). -/
def mergeExternalObjects (path : List PathSeg) (typeName : String)
    (target : ExternalObjectM) (sources : List SourceValue)
    (selectionSets : List (List SelectionM)) : ExternalObjectM :=
  let rs := mergeResults path typeName (sources.zip selectionSets)
  let results := rs.1
  let errors := rs.2
  let combinedData := results.foldl (fun d r => mergeDeepFields d r.data) target.data
  let newFieldSubschemaMap :=
    results.foldl fieldSubschemaMapStep (target.fieldSubschemaMap.getD [])
  { data := combinedData
    objectSubschema := target.objectSubschema
    fieldSubschemaMap := some newFieldSubschemaMap
    unpathedErrors := some (target.unpathedErrors.getD [] ++ errors) }

/-- `sourceProvenance source k`: the provenance rule of the field-subschema
map rebuild — the source's field-subschema-map entry for `k` when defined,
else the source's origin subschema. -/
def sourceProvenance (source : ExternalObjectM) (responseKey : String) : Option Subschema :=
  match source.fieldSubschemaMap with
  | none => source.objectSubschema
  | some fsm =>
    match lookupA fsm responseKey with
    | some (some s) => some s
    | _ => source.objectSubschema

/-- The last result whose data contains the given response key. -/
def lastContaining (results : List ExternalObjectM) (k : String) : Option ExternalObjectM :=
  (results.filter (fun r => (lookupA r.data k).isSome)).getLast?

theorem lookupA_isSome_iff {α : Type} (l : List (String × α)) (k : String) :
    (lookupA l k).isSome ↔ k ∈ l.map Prod.fst := by
  induction l with
  | nil => simp [lookupA]
  | cons p rest ih =>
    obtain ⟨k1, v⟩ := p
    by_cases h : k1 = k
    · subst h
      simp [lookupA]
    · simp [lookupA, h, ih, Ne.symm h]

theorem lookupA_foldl_upsert {α β : Type} (g : List (String × α) → β → List (String × α))
    (f : String → α) (keyOf : β → String)
    (hg : ∀ m x, g m x = upsertA m (keyOf x) (f (keyOf x))) :
    ∀ (l : List β) (acc : List (String × α)) (k : String),
      lookupA (l.foldl g acc) k
        = if k ∈ l.map keyOf then some (f k) else lookupA acc k := by
  intro l
  induction l with
  | nil => intro acc k; simp
  | cons x rest ih =>
    intro acc k
    simp only [List.foldl_cons, List.map_cons]
    rw [hg, ih]
    by_cases hmem : k ∈ rest.map keyOf
    · simp [hmem]
    · rw [if_neg hmem]
      by_cases hk : k = keyOf x
      · rw [hk, lookupA_upsertA_self, if_pos (by simp)]
      · rw [lookupA_upsertA_other _ _ _ _ hk, if_neg (by simp [List.mem_cons, hk, hmem])]

theorem fieldSubschemaMapStep_lookup (m : List (String × Option Subschema))
    (source : ExternalObjectM) (k : String) :
    lookupA (fieldSubschemaMapStep m source) k
      = if (lookupA source.data k).isSome then some (sourceProvenance source k)
        else lookupA m k := by
  unfold fieldSubschemaMapStep
  split
  · rename_i hnone
    rw [lookupA_foldl_upsert (fun m2 kv => upsertA m2 kv.1 source.objectSubschema)
      (fun _ => source.objectSubschema) Prod.fst (fun m2 kv => rfl) source.data m k]
    unfold sourceProvenance
    rw [hnone]
    by_cases hmem : k ∈ source.data.map Prod.fst
    · rw [if_pos hmem, if_pos (by rw [lookupA_isSome_iff]; exact hmem)]
    · rw [if_neg hmem, if_neg (by rw [lookupA_isSome_iff]; exact hmem)]
  · rename_i fsm hsome
    rw [lookupA_foldl_upsert
      (fun m2 kv => upsertA m2 kv.1
        (match lookupA fsm kv.1 with
         | some (some s) => some s
         | _ => source.objectSubschema))
      (fun k2 => match lookupA fsm k2 with
         | some (some s) => some s
         | _ => source.objectSubschema) Prod.fst (fun m2 kv => rfl) source.data m k]
    unfold sourceProvenance
    rw [hsome]
    by_cases hmem : k ∈ source.data.map Prod.fst
    · rw [if_pos hmem, if_pos (by rw [lookupA_isSome_iff]; exact hmem)]
    · rw [if_neg hmem, if_neg (by rw [lookupA_isSome_iff]; exact hmem)]

theorem lastContaining_nil (k : String) : lastContaining [] k = none := rfl

theorem lastContaining_cons (r : ExternalObjectM) (rest : List ExternalObjectM)
    (k : String) :
    lastContaining (r :: rest) k
      = match lastContaining rest k with
        | some src => some src
        | none => if (lookupA r.data k).isSome then some r else none := by
  unfold lastContaining
  by_cases hr : (lookupA r.data k).isSome
  · rw [List.filter_cons_of_pos (by simpa using hr)]
    rcases hrest : (rest.filter (fun r2 => (lookupA r2.data k).isSome)).getLast? with _ | src
    · rw [List.getLast?_eq_none_iff] at hrest
      rw [hrest]
      simp [hr]
    · have hne : rest.filter (fun r2 => (lookupA r2.data k).isSome) ≠ [] := by
        intro hnil
        rw [hnil] at hrest
        simp at hrest
      rcases List.exists_cons_of_ne_nil hne with ⟨r2, rest2, heq⟩
      rw [heq]
      rw [heq] at hrest
      rw [List.getLast?_cons_cons, hrest]
  · rw [List.filter_cons_of_neg (by simpa using hr)]
    rcases hrest : (rest.filter (fun r2 => (lookupA r2.data k).isSome)).getLast? with _ | src
    · rw [hrest]
      simp [hr]
    · rw [hrest]

theorem foldl_fieldSubschemaMapStep_lookup :
    ∀ (results : List ExternalObjectM) (init : List (String × Option Subschema))
      (k : String),
      lookupA (results.foldl fieldSubschemaMapStep init) k
        = match lastContaining results k with
          | some src => some (sourceProvenance src k)
          | none => lookupA init k := by
  intro results
  induction results with
  | nil => intro init k; simp [lastContaining_nil]
  | cons r rest ih =>
    intro init k
    simp only [List.foldl_cons]
    rw [ih, lastContaining_cons]
    rcases hrest : lastContaining rest k with _ | src
    · rw [fieldSubschemaMapStep_lookup]
      by_cases hr : (lookupA r.data k).isSome
      · simp [hr]
      · simp [hr]
    · rfl

theorem mergeResultsStep_fst (path : List PathSeg) (typeName : String)
    (acc : List ExternalObjectM × List GQLError) (p : SourceValue × List SelectionM) :
    (mergeResultsStep path typeName acc p).1
      = acc.1 ++ [expectedResult path typeName p] := by
  obtain ⟨src, sel⟩ := p
  cases src <;> rfl

theorem mergeResults_fst (path : List PathSeg) (typeName : String) :
    ∀ (pairs : List (SourceValue × List SelectionM))
      (acc : List ExternalObjectM × List GQLError),
      (pairs.foldl (mergeResultsStep path typeName) acc).1
        = acc.1 ++ pairs.map (expectedResult path typeName) := by
  intro pairs
  induction pairs with
  | nil => intro acc; simp
  | cons p rest ih =>
    intro acc
    simp only [List.foldl_cons, List.map_cons]
    rw [ih, mergeResultsStep_fst]
    simp

/-- C2: for every `mergeExternalObjects` call, every error or null source
contributes a synthesized null result whose response keys are exactly the
keys collected from its paired selection set — each key holding the source
error relocated (GraphQLError) or located (other Error) at the call path
extended by that key, or null for a null source — and every other source
passes through unchanged into the `results` list that is deep-merged
left-to-right into the target. -/
theorem mergeExternalObjects_error_null_sources
    (path : List PathSeg) (typeName : String) (target : ExternalObjectM)
    (sources : List SourceValue) (selectionSets : List (List SelectionM)) :
    (mergeResults path typeName (sources.zip selectionSets)).1
        = (sources.zip selectionSets).map (expectedResult path typeName)
    ∧ (∀ (e : GQLError) (sel : List SelectionM) (k : String),
        lookupA (nullResultFor path typeName (SourceValue.gqlError e) sel) k
          = if k ∈ (collectFieldsM typeName [] sel).map Prod.fst
            then some (JValue.errValue (relocatedError e (path ++ [PathSeg.str k])))
            else none)
    ∧ (∀ (msg : String) (sel : List SelectionM) (k : String),
        lookupA (nullResultFor path typeName (SourceValue.jsError msg) sel) k
          = if k ∈ (collectFieldsM typeName [] sel).map Prod.fst
            then some (JValue.errValue (locatedError msg (path ++ [PathSeg.str k])))
            else none)
    ∧ (∀ (sel : List SelectionM) (k : String),
        lookupA (nullResultFor path typeName SourceValue.nullValue sel) k
          = if k ∈ (collectFieldsM typeName [] sel).map Prod.fst
            then some JValue.vnull else none)
    ∧ (mergeExternalObjects path typeName target sources selectionSets).data
        = ((sources.zip selectionSets).map (expectedResult path typeName)).foldl
            (fun d r => mergeDeepFields d r.data) target.data := by
  refine ⟨?_, ?_, ?_, ?_, ?_⟩
  · exact mergeResults_fst path typeName (sources.zip selectionSets) ([], [])
  · intro e sel k
    unfold nullResultFor
    show lookupA ((collectFieldsM typeName [] sel).foldl
      (fun acc p => upsertA acc p.1
        (JValue.errValue (relocatedError e (path ++ [PathSeg.str p.1])))) []) k = _
    rw [lookupA_foldl_upsert
      (fun acc p => upsertA acc p.1
        (JValue.errValue (relocatedError e (path ++ [PathSeg.str p.1]))))
      (fun k2 => JValue.errValue (relocatedError e (path ++ [PathSeg.str k2])))
      Prod.fst (fun m x => rfl) _ [] k]
    simp only [lookupA]
  · intro msg sel k
    unfold nullResultFor
    show lookupA ((collectFieldsM typeName [] sel).foldl
      (fun acc p => upsertA acc p.1
        (JValue.errValue (locatedError msg (path ++ [PathSeg.str p.1])))) []) k = _
    rw [lookupA_foldl_upsert
      (fun acc p => upsertA acc p.1
        (JValue.errValue (locatedError msg (path ++ [PathSeg.str p.1]))))
      (fun k2 => JValue.errValue (locatedError msg (path ++ [PathSeg.str k2])))
      Prod.fst (fun m x => rfl) _ [] k]
    simp only [lookupA]
  · intro sel k
    unfold nullResultFor
    show lookupA ((collectFieldsM typeName [] sel).foldl
      (fun acc p => upsertA acc p.1 JValue.vnull) []) k = _
    rw [lookupA_foldl_upsert
      (fun acc p => upsertA acc p.1 JValue.vnull)
      (fun _ => JValue.vnull)
      Prod.fst (fun m x => rfl) _ [] k]
    simp only [lookupA]
  · unfold mergeExternalObjects
    dsimp only
    rw [show (mergeResults path typeName (sources.zip selectionSets)).1
        = (sources.zip selectionSets).map (expectedResult path typeName) from by
      simpa using mergeResults_fst path typeName (sources.zip selectionSets) ([], [])]

/-- C3: provenance is total with the origin subschema as default —
`getSubschema` returns the field-subschema-map entry when present and
otherwise the object's origin subschema; after `mergeExternalObjects`, each
response key appearing in a result source has as provenance that source's
field-subschema-map entry when defined, else that source's origin subschema
(later sources overriding earlier ones for shared keys); consequently, on a
merge whose target has an origin subschema, every response key resolves to
some subschema. -/
theorem getSubschema_total_with_origin_default :
    (∀ (o : ExternalObjectM) (k : String) (m : List (String × Option Subschema))
        (s : Subschema),
        o.fieldSubschemaMap = some m → lookupA m k = some (some s) →
        getSubschema o k = some s)
    ∧ (∀ (o : ExternalObjectM) (k : String) (m : List (String × Option Subschema)),
        o.fieldSubschemaMap = some m →
        (lookupA m k = none ∨ lookupA m k = some none) →
        getSubschema o k = o.objectSubschema)
    ∧ (∀ (path : List PathSeg) (typeName : String) (target : ExternalObjectM)
        (sources : List SourceValue) (sels : List (List SelectionM))
        (k : String) (src : ExternalObjectM),
        lastContaining (mergeResults path typeName (sources.zip sels)).1 k = some src →
        lookupA ((mergeExternalObjects path typeName target sources
            sels).fieldSubschemaMap.getD []) k
          = some (sourceProvenance src k))
    ∧ (∀ (path : List PathSeg) (typeName : String) (target : ExternalObjectM)
        (sources : List SourceValue) (sels : List (List SelectionM)) (k : String),
        (target.objectSubschema).isSome →
        (getSubschema (mergeExternalObjects path typeName target sources sels) k).isSome) := by
  refine ⟨?_, ?_, ?_, ?_⟩
  · intro o k m s hm hl
    unfold getSubschema
    rw [hm]
    simp only [Option.getD_some]
    rw [hl]
  · intro o k m hm hl
    unfold getSubschema
    rw [hm]
    simp only [Option.getD_some]
    rcases hl with hl | hl <;> rw [hl]
  · intro path typeName target sources sels k src hlast
    unfold mergeExternalObjects
    dsimp only
    simp only [Option.getD_some]
    rw [foldl_fieldSubschemaMapStep_lookup, hlast]
  · intro path typeName target sources sels k htarget
    unfold mergeExternalObjects getSubschema
    dsimp only
    simp only [Option.getD_some]
    split
    · rfl
    · exact htarget

theorem getSubschema_total_with_origin_default_witness :
    getSubschema
      { data := [], objectSubschema := some 7,
        fieldSubschemaMap := some [("a", some 3)], unpathedErrors := some [] } "a"
      = some 3
    ∧ getSubschema
      { data := [], objectSubschema := some 7,
        fieldSubschemaMap := some [("a", some 3)], unpathedErrors := some [] } "b"
      = some 7
    ∧ (getSubschema (mergeExternalObjects [] "T"
        { data := [], objectSubschema := some 7,
          fieldSubschemaMap := some [], unpathedErrors := some [] } [] []) "x").isSome := by
  refine ⟨?_, ?_, ?_⟩
  · exact getSubschema_total_with_origin_default.1 _ "a" [("a", some 3)] 3 rfl rfl
  · exact getSubschema_total_with_origin_default.2.1 _ "b" [("a", some 3)] rfl
      (Or.inl rfl)
  · exact getSubschema_total_with_origin_default.2.2.2 [] "T" _ [] [] "x" rfl

/-- C9 (frame effect): `mergeExternalObjects` always records the merged
result as originating from the target's origin subschema, whatever the
sources' subschemas were. -/
theorem mergeExternalObjects_preserves_origin
    (path : List PathSeg) (typeName : String) (target : ExternalObjectM)
    (sources : List SourceValue) (selectionSets : List (List SelectionM)) :
    (mergeExternalObjects path typeName target sources selectionSets).objectSubschema
      = target.objectSubschema := rfl

/-! ## Default merged resolver (packages/delegate/src/defaultMergedResolver.ts)

The resolver's decision structure is embedded as a total function returning
the action taken; ambient lookups (source-subschema field map, receiver,
merged-type info, target subschemas) are passed in as parameters. -/

/-- A JS `parent` argument: `undefined`, `null`, or an object. -/
inductive ParentValue where
  | jsUndefined
  | jsNull
  | obj (o : ExternalObjectM)

/-- What the resolver does (and returns). -/
inductive ResolveOutcome where
  | nullResult
  | defaultFieldResolution (responseKey : String)
  | resolvedExternalValue (data : JValue) (subschema : Option Subschema)
  | receiverRequest
  | resolverUndefined
  | delegatedToLoader

/-- The fields of `info` the resolver reads. -/
structure ResolveInfoM where
  responseKey : String
  fieldName : String
  parentTypeName : String

/-- `getSubschema(parent)` called without a response key (the map lookup of
an undefined key misses, falling through to the origin subschema). -/
def getSubschemaNoKey (o : ExternalObjectM) : Option Subschema :=
  o.objectSubschema

/-- `defaultMergedResolver(parent, args, context, info)`: the `!parent` null
guard, the external-object test, the present-data short-circuit, the
source-subschema membership test (with optional receiver), and the final
delegation to the per-parent loader. -/
def defaultMergedResolver (parent : ParentValue) (info : ResolveInfoM)
    (sourceSubschemaFields : List String) (hasReceiver : Bool)
    (mergedTypeInfoPresent : Bool) (targetSubschemas : Option (List Subschema)) :
    ResolveOutcome :=
  match parent with
  | ParentValue.jsUndefined => ResolveOutcome.nullResult
  | ParentValue.jsNull => ResolveOutcome.nullResult
  | ParentValue.obj o =>
    if ¬ isExternalObject o then ResolveOutcome.defaultFieldResolution info.responseKey
    else
      match lookupA o.data info.responseKey with
      | some data => ResolveOutcome.resolvedExternalValue data (getSubschemaNoKey o)
      | none =>
        if info.fieldName ∈ sourceSubschemaFields then
          if hasReceiver then ResolveOutcome.receiverRequest
          else ResolveOutcome.resolverUndefined
        else
          if ¬ mergedTypeInfoPresent then ResolveOutcome.resolverUndefined
          else
            match targetSubschemas with
            | none => ResolveOutcome.resolverUndefined
            | some [] => ResolveOutcome.resolverUndefined
            | some (_ :: _) => ResolveOutcome.delegatedToLoader

/-- C10: `defaultMergedResolver` returns null whenever its parent is null or
undefined — the very first branch, independent of every other input, so a
missing parent never reaches the annotation test or any property access. -/
theorem defaultMergedResolver_null_parent (info : ResolveInfoM)
    (sourceSubschemaFields : List String) (hasReceiver : Bool)
    (mergedTypeInfoPresent : Bool) (targetSubschemas : Option (List Subschema)) :
    defaultMergedResolver ParentValue.jsNull info sourceSubschemaFields hasReceiver
        mergedTypeInfoPresent targetSubschemas = ResolveOutcome.nullResult
    ∧ defaultMergedResolver ParentValue.jsUndefined info sourceSubschemaFields hasReceiver
        mergedTypeInfoPresent targetSubschemas = ResolveOutcome.nullResult :=
  ⟨rfl, rfl⟩

/-! ## Receiver (the streamed/deferred patch multiplexer)

`Receiver._iterate` is modelled as the pure state of its `while` loop: it
pulls patches while `hasNext && this.numRequests`, publishes every patch
whose path starts at the receiver's field name, closes the pubsub when the
iterable is exhausted, and — as in the source — owns a flag for whether the
underlying iterable's return/cancel method was invoked (no statement of the
loop invokes it). -/

/-- An `ExecutionPatchResult` as consumed by `_iterate`. -/
structure PatchM where
  path : Option (List PathSeg)
deriving DecidableEq, Repr

/-- `path.join('.')`. -/
def joinPath (path : List PathSeg) : String :=
  String.intercalate "." (path.map (fun seg =>
    match seg with
    | PathSeg.str s => s
    | PathSeg.idx n => toString n))

/-- Outcome of running `_iterate`'s loop against the remaining patches of the
underlying async iterable. -/
structure IterateResult where
  pulled : Nat
  published : List (String × PatchM)
  pubsubClosed : Bool
  returnCalled : Bool
deriving DecidableEq, Repr

/-- The `while (hasNext && this.numRequests)` loop of `Receiver._iterate`,
with the subschema's remaining patches as the iterator's future `next()`
results (an empty list meaning the next pull reports `done`). -/
def iterateLoop (fieldName : String) (numRequests : Nat) :
    List PatchM → IterateResult
  | [] =>
    if numRequests = 0 then
      { pulled := 0, published := [], pubsubClosed := false, returnCalled := false }
    else
      { pulled := 1, published := [], pubsubClosed := true, returnCalled := false }
  | p :: rest =>
    if numRequests = 0 then
      { pulled := 0, published := [], pubsubClosed := false, returnCalled := false }
    else
      let published :=
        match p.path with
        | some (PathSeg.str s :: tailPath) =>
          if s = fieldName then [(joinPath (PathSeg.str s :: tailPath), p)] else []
        | _ => []
      let r := iterateLoop fieldName numRequests rest
      { pulled := r.pulled + 1
        published := published ++ r.published
        pubsubClosed := r.pubsubClosed
        returnCalled := r.returnCalled }

/-- The claim as stated is false on the code: with all subscribers dropped
(`numRequests = 0`) the loop does stop pulling at the next patch boundary,
but the underlying iterable's return/cancel method is never invoked — the
loop body contains no such call. -/
theorem receiver_iterate_no_return_counterexample :
    (iterateLoop "viewer" 0 [{ path := some [PathSeg.str "viewer"] }]).pulled = 0
    ∧ (iterateLoop "viewer" 0 [{ path := some [PathSeg.str "viewer"] }]).returnCalled
        = false
    ∧ ¬ (iterateLoop "viewer" 0 [{ path := some [PathSeg.str "viewer"] }]).returnCalled
        = true := by
  refine ⟨rfl, rfl, by simp [iterateLoop]⟩

theorem iterateLoop_returnCalled_false (fieldName : String) (numRequests : Nat) :
    ∀ (patches : List PatchM),
      (iterateLoop fieldName numRequests patches).returnCalled = false := by
  intro patches
  induction patches with
  | nil =>
    simp only [iterateLoop]
    split <;> rfl
  | cons p rest ih =>
    simp only [iterateLoop]
    split
    · rfl
    · simpa using ih

/-- C8 (amended): once `numRequests` reaches zero, `_iterate` pulls no
further patches from the subschema's async iterable (and, the iterable not
being exhausted, does not close the pubsub); the loop never invokes the
underlying iterable's return/cancel method. -/
theorem receiver_iterate_stops_on_zero_requests (fieldName : String) :
    (∀ (patches : List PatchM),
      (iterateLoop fieldName 0 patches).pulled = 0
      ∧ (iterateLoop fieldName 0 patches).pubsubClosed = false)
    ∧ (∀ (numRequests : Nat) (patches : List PatchM),
      (iterateLoop fieldName numRequests patches).returnCalled = false) := by
  constructor
  · intro patches
    cases patches <;> simp [iterateLoop]
  · intro numRequests patches
    exact iterateLoop_returnCalled_false fieldName numRequests patches

/-! ## Type candidates (packages/stitch/src/typeCandidates.ts)

Named types are identified by a numeric tag (object identity in the source:
`prev.type === type`). -/

abbrev TypeTag := Nat

structure MergeTypeCandidate where
  type : TypeTag
  subschema : Option Subschema
  transformedSubschema : Option Subschema
deriving DecidableEq, Repr

/-- The `{subschema, transformedSubschema}` record handed to `onTypeConflict`
for one side. -/
structure CandidateInfo where
  subschema : Option Subschema
  transformedSubschema : Option Subschema
deriving DecidableEq, Repr

/-- The `{left, right}` info passed to `onTypeConflict(prev.type, next.type,
…)` — transcribed from the source, where both `left` and `right` are built
from `prev`'s fields. -/
def conflictInfoPair (prev next : MergeTypeCandidate) : CandidateInfo × CandidateInfo :=
  ({ subschema := prev.subschema, transformedSubschema := prev.transformedSubschema },
   { subschema := prev.subschema, transformedSubschema := prev.transformedSubschema })

/-- `onTypeConflictToCandidateSelector(onTypeConflict)`: reduce the
candidates left to right; keep `prev` or `next` when the callback returns
their type, else wrap the returned type in a fresh `{schemaName: 'unknown'}`
candidate. -/
def candidateSelectorReduce
    (onTypeConflict : TypeTag → TypeTag → CandidateInfo × CandidateInfo → TypeTag)
    (first : MergeTypeCandidate) (rest : List MergeTypeCandidate) : MergeTypeCandidate :=
  rest.foldl (fun prev next =>
    let t := onTypeConflict prev.type next.type (conflictInfoPair prev next)
    if prev.type = t then prev
    else if next.type = t then next
    else { type := t, subschema := none, transformedSubschema := none }) first

/-- The choose branch of `buildTypes` for a type name not selected for
merging: `onTypeConflict` reduction when supplied, else the last candidate. -/
def chooseTypeForName
    (onTypeConflict :
      Option (TypeTag → TypeTag → CandidateInfo × CandidateInfo → TypeTag))
    (cands : List MergeTypeCandidate) : Option TypeTag :=
  match cands with
  | [] => none
  | c0 :: rest =>
    match onTypeConflict with
    | none => some ((c0 :: rest).getLast (by simp)).type
    | some f => some (candidateSelectorReduce f c0 rest).type

/-- Evaluating the embedded code at two candidates from different subschemas:
the `right` info record passed to `onTypeConflict` carries the PREVIOUS
candidate's subschema and transformedSubschema (the source builds both sides
of the pair from `prev`), while the next candidate's subschema differs; the
default (no `onTypeConflict`) choice is the last candidate, as claimed. -/
theorem onTypeConflict_right_info_uses_prev :
    (conflictInfoPair ⟨10, some 1, some 1⟩ ⟨20, some 2, some 2⟩).2
        = { subschema := some 1, transformedSubschema := some 1 }
    ∧ ¬ (conflictInfoPair ⟨10, some 1, some 1⟩ ⟨20, some 2, some 2⟩).2
        = { subschema := some 2, transformedSubschema := some 2 }
    ∧ chooseTypeForName none
        [⟨10, some 1, some 1⟩, ⟨20, some 2, some 2⟩] = some 20 := by
  refine ⟨rfl, by decide, rfl⟩

/-! ## Stitching-directives validator
(packages/stitching-directives/src/stitchingDirectivesValidator.ts)

The `@merge` validation path for one root field is embedded as a function
returning `Except` with the thrown message.  The external parsers
(`parseMergeArgsExpr`, `parseValue`) are passed in as success predicates.
`dottedNameRegEx` is `/^[_A-Za-z][_0-9A-Za-z]*(.[_A-Za-z][_0-9A-Za-z]*)*$/`
— with an unescaped dot, so any non-line-terminator character separates two
names. -/

def isDottedNameStart (c : Char) : Bool :=
  ('A' ≤ c && c ≤ 'Z') || ('a' ≤ c && c ≤ 'z') || c = '_'

def isDottedNameChar (c : Char) : Bool :=
  isDottedNameStart c || ('0' ≤ c && c ≤ '9')

mutual

/-- In the middle of a name (at least one name character read): the rest of
the string may continue the name, end, or continue with one separator
character (any character but a line terminator — the regex dot is
unescaped) followed by another name. -/
def dottedRest : List Char → Bool
  | [] => true
  | c :: cs =>
    (isDottedNameChar c && dottedRest cs)
      || (c ≠ '\n' && c ≠ '\r' && dottedStartName cs)

/-- At the start of a name. -/
def dottedStartName : List Char → Bool
  | [] => false
  | c :: cs => isDottedNameStart c && dottedRest cs

end

/-- `s.match(dottedNameRegEx)` is truthy. -/
def matchesDottedNameRegEx (s : String) : Bool :=
  dottedStartName s.toList

/-- Named-type kinds as tested by the validator. -/
inductive NamedKind where
  | objectK
  | interfaceK
  | unionK
  | scalarK
  | enumK
  | inputObjectK
deriving DecidableEq, Repr

/-- GraphQL type shapes: named types with NonNull and List wrappers. -/
inductive TypeShape where
  | named (k : NamedKind)
  | nonNullOf (t : TypeShape)
  | listOf (t : TypeShape)
deriving DecidableEq, Repr

def getNullableType : TypeShape → TypeShape
  | TypeShape.nonNullOf t => t
  | t => t

/-- The argument map of one `@merge` directive occurrence. -/
structure MergeDirectiveArgs where
  argsExpr : Option String
  keyArg : Option String
  keyField : Option String
  key : Option (List String)
  additionalArgs : Option String
  types : Option (List String)
deriving Repr

/-- `keyDef.split(':')` over characters (`String.splitOn` does not reduce
well in proofs): JS split semantics, never returning an empty list. -/
def splitOnColonChars : List Char → List (List Char)
  | [] => [[]]
  | c :: rest =>
    match splitOnColonChars rest with
    | [] => [[]]
    | cur :: others =>
      if c = ':' then [] :: cur :: others
      else (c :: cur) :: others

def splitOnColon (s : String) : List String :=
  (splitOnColonChars s.toList).map (fun cs => String.mk cs)

/-- `Except` success test, for decidable evaluation of the validator. -/
def exceptIsOk : Except String Unit → Bool
  | Except.ok _ => true
  | Except.error _ => false

/-- The per-`keyDef` loop of the `key` validation: split on `:` into
`aliasOrKeyPath` and (optional) `keyPath` and check both against the
dotted-name regex (the alias check reads `aliasOrKeyPath`, as the source
does). -/
def validateKeyDefs : List String → Except String Unit
  | [] => Except.ok ()
  | keyDef :: rest =>
    let parts := splitOnColon keyDef
    let aliasOrKeyPath := parts.headD ""
    let keyPath : String :=
      match parts[1]? with
      | none => aliasOrKeyPath
      | some kp => kp
    if ¬ matchesDottedNameRegEx keyPath then
      Except.error "Each partial key within the key argument for @merge directive must be a set of valid GraphQL SDL names separated by periods."
    else if ¬ matchesDottedNameRegEx aliasOrKeyPath then
      Except.error "Each alias within the key argument for @merge directive must be a set of valid GraphQL SDL names separated by periods."
    else validateKeyDefs rest

/-- The tail of the `@merge` validation: `additionalArgs` parse, `argsExpr`
exclusivity, return-kind check, `types` restriction. -/
def validateMergeDirectiveTail (typeName : String) (kind : NamedKind)
    (dirArgs : MergeDirectiveArgs) (parseValueOk : String → Bool)
    (returnTypeIsAbstract : Bool) (implementingTypeNames : List String) :
    Except String Unit :=
  if dirArgs.additionalArgs.isSome ∧ ¬ parseValueOk (dirArgs.additionalArgs.getD "") then
    Except.error "parseValue failed"
  else if dirArgs.argsExpr.isSome ∧ (dirArgs.keyArg.isSome ∨ dirArgs.additionalArgs.isSome) then
    Except.error "Cannot use @merge directive with both argsExpr argument and any additional argument."
  else if kind ≠ NamedKind.interfaceK ∧ kind ≠ NamedKind.unionK ∧ kind ≠ NamedKind.objectK then
    Except.error "@merge directive may be used only with resolver that return an object, interface, or union."
  else
    match dirArgs.types with
    | none => Except.ok ()
    | some typeNames =>
      if ¬ returnTypeIsAbstract then
        Except.error "Types argument can only be used with a field that returns an abstract type."
      else if typeNames.any (fun tn => ¬ implementingTypeNames.contains tn) then
        Except.error "Types argument can only include only type names that implement the field return type abstract type."
      else Except.ok ()

/-- The remainder of the `@merge` validation after the `keyArg` checks: the
`keyField` reading (which the source takes from `directiveArgumentMap.keyArg`
— transcribed faithfully), the `key` checks, `additionalArgs`, the
`argsExpr` exclusivity check, the return-kind check, and the `types`
restriction. -/
def validateMergeDirectiveRest (typeName : String) (kind : NamedKind)
    (dirArgs : MergeDirectiveArgs) (parseValueOk : String → Bool)
    (returnTypeIsAbstract : Bool) (implementingTypeNames : List String) :
    Except String Unit :=
  -- const keyField = directiveArgumentMap.keyArg;  (source line 90)
  let keyField := dirArgs.keyArg
  if keyField.isSome ∧ ¬ matchesDottedNameRegEx (keyField.getD "") then
    Except.error "keyField argument for @merge directive must be a set of valid GraphQL SDL names separated by periods."
  else
    match dirArgs.key with
    | some key =>
      if keyField.isSome then
        Except.error "Cannot use @merge directive with both keyField and key arguments."
      else
        match validateKeyDefs key with
        | Except.error e => Except.error e
        | Except.ok () =>
          validateMergeDirectiveTail typeName kind dirArgs parseValueOk
            returnTypeIsAbstract implementingTypeNames
    | none =>
      validateMergeDirectiveTail typeName kind dirArgs parseValueOk
        returnTypeIsAbstract implementingTypeNames

/-- The `@merge` branch of `stitchingDirectivesValidator`'s object-field
mapper, for a field of the given parent type: every `throw` becomes an
`Except.error` with the thrown message; NOTE the transcription of the
source's line reading the `keyArg` argument into the `keyField` variable. -/
def validateMergeDirective (queryTypeName : Option String) (typeName : String)
    (fieldType : TypeShape) (argNames : List String)
    (dirArgs : MergeDirectiveArgs)
    (parseMergeArgsExprOk : String → Bool) (parseValueOk : String → Bool)
    (returnTypeIsAbstract : Bool) (implementingTypeNames : List String) :
    Except String Unit :=
  if queryTypeName ≠ some typeName then
    Except.error "@merge directive may be used only for root fields of the root Query type."
  else
    let returnType0 := getNullableType fieldType
    let returnType :=
      match returnType0 with
      | TypeShape.listOf inner => getNullableType inner
      | t => t
    match returnType with
    | TypeShape.listOf _ =>
      Except.error "@merge directive must be used on a field that returns an object or a list of objects."
    | TypeShape.nonNullOf _ =>
      Except.error "@merge directive must be used on a field that returns an object or a list of objects."
    | TypeShape.named kind =>
      let mergeArgsExpr := dirArgs.argsExpr
      if mergeArgsExpr.isSome ∧ ¬ parseMergeArgsExprOk (mergeArgsExpr.getD "") then
        Except.error "parseMergeArgsExpr failed"
      else
        match dirArgs.keyArg with
        | none =>
          if mergeArgsExpr = none ∧ argNames.length ≠ 1 then
            Except.error "Cannot use @merge directive without keyArg argument if resolver takes more than one argument."
          else validateMergeDirectiveRest typeName kind dirArgs parseValueOk
            returnTypeIsAbstract implementingTypeNames
        | some keyArgVal =>
          if ¬ matchesDottedNameRegEx keyArgVal then
            Except.error "keyArg argument for @merge directive must be a set of valid GraphQL SDL names separated by periods."
          else validateMergeDirectiveRest typeName kind dirArgs parseValueOk
            returnTypeIsAbstract implementingTypeNames

/-- Evaluating the embedded validator at a root Query field that carries
`@merge(keyField: "not dotted!!", key: ["validKey"])` with no `keyArg`: the
validator accepts the schema, although the claim requires a throw both for
the `key`/`keyField` combination and for the malformed `keyField` — the
source reads `directiveArgumentMap.keyArg` into its `keyField` variable, so
neither check ever sees the actual `keyField` argument.  (Additionally, the
unescaped dot in `dottedNameRegEx` lets any non-line-terminator character
separate names, e.g. a space.) -/
theorem stitchingDirectivesValidator_keyField_checks_missing :
    exceptIsOk (validateMergeDirective (some "Query") "Query"
      (TypeShape.named NamedKind.objectK) ["id"]
      { argsExpr := none, keyArg := none, keyField := some "not dotted!!",
        key := some ["validKey"], additionalArgs := none, types := none }
      (fun _ => true) (fun _ => true) false []) = true
    ∧ matchesDottedNameRegEx "not dotted!!" = false
    ∧ matchesDottedNameRegEx "a b" = true := by
  refine ⟨by decide, by decide, by decide⟩

/-! ## FilterToSchema (packages/delegate/src/transforms/FilterToSchema.ts)

The target schema is modelled with named object types only (field name →
declared argument names and named return type); a type name absent from the
map is non-composite.  A scalar type condition is treated as an unknown
type.  `visit`/`TypeInfo` become a recursive traversal tracking the parent
type name; the `assertSome(typeInfo.getType())` crash on a field under a
non-composite parent becomes `none`. -/

structure FieldDefM where
  returnTypeName : String
  argNames : List String
deriving DecidableEq, Repr

abbrev TypeFields := List (String × FieldDefM)

structure SchemaM where
  types : List (String × TypeFields)
  queryTypeName : Option String
  mutationTypeName : Option String
  subscriptionTypeName : Option String
deriving DecidableEq, Repr

def isComposite (S : SchemaM) (typeName : String) : Bool :=
  (lookupA S.types typeName).isSome

/-- `TypeNameMetaFieldDef`: no arguments, scalar `String` return. -/
def metaFieldDef : FieldDefM := { returnTypeName := "String", argNames := [] }

/-- `node.name.value === '__typename' ? TypeNameMetaFieldDef :
fields[node.name.value]`. -/
def fieldDefFor (tdef : TypeFields) (name : String) : Option FieldDefM :=
  if name = "__typename" then some metaFieldDef else lookupA tdef name

/-- The variable names appearing in an argument list, in visit order. -/
def varsOfArgs (args : List ArgM) : List String :=
  args.filterMap (fun a =>
    match a.value with
    | ValueM.var n => some n
    | ValueM.const => none)

/-- The `usedVariables`/`usedFragments` accumulators of `filterSelectionSet`. -/
structure FilterState where
  usedVariables : List String
  usedFragments : List String
deriving DecidableEq, Repr

/-- Sequential `usedVariables.splice(usedVariables.indexOf(v), 1)`: remove
the first occurrence of each listed variable. -/
def eraseAllStr (l : List String) (toRemove : List String) : List String :=
  toRemove.foldl (fun acc x => acc.erase x) l

mutual

/-- Variable names of one (filtered) selection, in visit order. -/
def varsOfSel : SelectionM → List String
  | .field _ _ args none => varsOfArgs args
  | .field _ _ args (some sub) => varsOfArgs args ++ varsOfSels sub
  | .inlineFrag _ sub => varsOfSels sub
  | .spread _ => []

def varsOfSels : List SelectionM → List String
  | [] => []
  | s :: rest => varsOfSel s ++ varsOfSels rest

end

mutual

/-- Fragment-spread names of one (filtered) selection, in visit order. -/
def fragsOfSel : SelectionM → List String
  | .field _ _ _ none => []
  | .field _ _ _ (some sub) => fragsOfSels sub
  | .inlineFrag _ sub => fragsOfSels sub
  | .spread name => [name]

def fragsOfSels : List SelectionM → List String
  | [] => []
  | s :: rest => fragsOfSel s ++ fragsOfSels rest

end

/-- `filterSelectionSet`'s visitor, threading the parent type name and the
accumulators: unknown fields are dropped at enter (children unvisited),
arguments are filtered to the declared names, variables of the (filtered)
arguments are recorded, composite-returning fields whose filtered selection
set is empty or absent are dropped at leave with their variables un-counted,
fragment spreads survive only when valid and applying to the parent type
(recording the fragment name), inline fragments survive when conditionless
or with a condition naming the (composite) parent; a field under a
non-composite parent makes `assertSome(typeInfo.getType())` throw (`none`). -/
def filterSels (S : SchemaM) (VF : List (String × String)) :
    String → List SelectionM → FilterState → Option (List SelectionM × FilterState)
  | _, [], st => some ([], st)
  | parent, SelectionM.field name aliasName args subsel :: rest, st =>
    match lookupA S.types parent with
    | some tdef =>
      match fieldDefFor tdef name with
      | none => filterSels S VF parent rest st
      | some fdef =>
        let args2 := args.filter (fun a => fdef.argNames.contains a.name)
        let st1 : FilterState :=
          { st with usedVariables := st.usedVariables ++ varsOfArgs args2 }
        match subsel with
        | none =>
          if isComposite S fdef.returnTypeName then
            let st2 : FilterState :=
              { st1 with usedVariables := eraseAllStr st1.usedVariables (varsOfArgs args2) }
            filterSels S VF parent rest st2
          else
            match filterSels S VF parent rest st1 with
            | none => none
            | some (out, st2) =>
              some (SelectionM.field name aliasName args2 none :: out, st2)
        | some sub =>
          match filterSels S VF fdef.returnTypeName sub st1 with
          | none => none
          | some (sub2, st2) =>
            if isComposite S fdef.returnTypeName ∧ sub2.isEmpty then
              let st3 : FilterState :=
                { st2 with usedVariables :=
                    eraseAllStr st2.usedVariables (varsOfArgs args2 ++ varsOfSels sub2) }
              filterSels S VF parent rest st3
            else
              match filterSels S VF parent rest st2 with
              | none => none
              | some (out, st3) =>
                some (SelectionM.field name aliasName args2 (some sub2) :: out, st3)
    | none => none
  | parent, SelectionM.inlineFrag typeCond sub :: rest, st =>
    match typeCond with
    | some c =>
      if c = parent ∧ isComposite S parent then
        match filterSels S VF c sub st with
        | none => none
        | some (sub2, st1) =>
          match filterSels S VF parent rest st1 with
          | none => none
          | some (out, st2) => some (SelectionM.inlineFrag (some c) sub2 :: out, st2)
      else filterSels S VF parent rest st
    | none =>
      match filterSels S VF parent sub st with
      | none => none
      | some (sub2, st1) =>
        match filterSels S VF parent rest st1 with
        | none => none
        | some (out, st2) => some (SelectionM.inlineFrag none sub2 :: out, st2)
  | parent, SelectionM.spread name :: rest, st =>
    match lookupA VF name with
    | some cond =>
      if cond = parent ∧ isComposite S parent then
        let st1 : FilterState :=
          { st with usedFragments := st.usedFragments ++ [name] }
        match filterSels S VF parent rest st1 with
        | none => none
        | some (out, st2) => some (SelectionM.spread name :: out, st2)
      else filterSels S VF parent rest st
    | none => filterSels S VF parent rest st
termination_by _ sels _ => SelectionM.sizeList sels
decreasing_by
  all_goals simp only [SelectionM.sizeList]
  all_goals first
    | exact Nat.lt_add_of_pos_left (SelectionM.size_pos _)
    | (simp only [SelectionM.size]
       omega)

inductive OpType where
  | query
  | mutation
  | subscription
deriving DecidableEq, Repr

structure OperationM where
  operation : OpType
  name : Option String
  variableDefinitions : List String
  selectionSet : List SelectionM

structure FragmentM where
  name : String
  typeCondition : String
  selectionSet : List SelectionM

inductive DefinitionM where
  | op (o : OperationM)
  | frag (f : FragmentM)

structure DocumentM where
  definitions : List DefinitionM

/-- The `union(...arrays)` helper of FilterToSchema.ts: concatenation keeping
the first occurrence of each string. -/
def dedupKeepFirst (l : List String) : List String :=
  l.foldl (fun acc x => if acc.contains x then acc else acc ++ [x]) []

def unionStr (a b : List String) : List String :=
  dedupKeepFirst (a ++ b)

def DocumentM.operations (doc : DocumentM) : List OperationM :=
  doc.definitions.filterMap (fun d =>
    match d with
    | DefinitionM.op o => some o
    | _ => none)

def DocumentM.fragments (doc : DocumentM) : List FragmentM :=
  doc.definitions.filterMap (fun d =>
    match d with
    | DefinitionM.frag f => some f
    | _ => none)

/-- The root type chosen per operation kind (`targetSchema.getSubscriptionType()`
etc.), as an `Option` since the schema may lack that root. -/
def rootTypeFor (S : SchemaM) : OpType → Option String
  | OpType.subscription => S.subscriptionTypeName
  | OpType.mutation => S.mutationTypeName
  | OpType.query => S.queryTypeName

/-- `validFragments`: fragments whose type condition exists in the target
schema (the source checks `targetSchema.getType(typeName)`). -/
def docValidFragments (S : SchemaM) (doc : DocumentM) : List FragmentM :=
  doc.fragments.filter (fun fr => isComposite S fr.typeCondition)

/-- `validFragmentsWithType`: fragment name to type-condition map. -/
def docVF (S : SchemaM) (doc : DocumentM) : List (String × String) :=
  (docValidFragments S doc).foldl (fun acc fr => upsertA acc fr.name fr.typeCondition) []

/-- The `while (remainingFragments.length !== 0)` loop of
`collectFragmentVariables`, with explicit fuel (the source loop does not
terminate on cyclically spreading fragments): pop the last remaining name,
filter the first fragment of that name, union in the fragments its filtered
body uses, and emit it once (the `fragmentSet` guard).  Returns
`(usedVariables, newFragments, fragmentSet)`. -/
def collectFragmentVariables (S : SchemaM) (validFragments : List FragmentM)
    (VF : List (String × String)) :
    Nat → List String → List String → List String → List FragmentM →
    Option (List String × List FragmentM × List String)
  | fuel, fragmentSet, remainingFragments, usedVariables, newFragments =>
    match remainingFragments.getLast? with
    | none => some (usedVariables, newFragments, fragmentSet)
    | some nextFragmentName =>
      match fuel with
      | 0 => none
      | fuel2 + 1 =>
        let remaining2 := remainingFragments.dropLast
        match validFragments.find? (fun fr => fr.name = nextFragmentName) with
        | none =>
          collectFragmentVariables S validFragments VF fuel2 fragmentSet remaining2
            usedVariables newFragments
        | some fragment =>
          if isComposite S fragment.typeCondition = false then none
          else
            match filterSels S VF fragment.typeCondition fragment.selectionSet ⟨[], []⟩ with
            | none => none
            | some (sels2, st) =>
              let remaining3 := unionStr remaining2 st.usedFragments
              let usedVariables2 := unionStr usedVariables st.usedVariables
              if nextFragmentName ≠ "" ∧ ¬ fragmentSet.contains nextFragmentName then
                collectFragmentVariables S validFragments VF fuel2
                  (fragmentSet ++ [nextFragmentName]) remaining3 usedVariables2
                  (newFragments ++
                    [{ name := nextFragmentName,
                       typeCondition := fragment.typeCondition,
                       selectionSet := sels2 }])
              else
                collectFragmentVariables S validFragments VF fuel2 fragmentSet remaining3
                  usedVariables2 newFragments

/-- The per-operation body of `filterToSchema`'s `operations.forEach`,
threading `(usedVariables, usedFragments, newOperations, newFragments,
fragmentSet)`; note `newFragments` is overwritten with each call's collected
fragments, as in the source. -/
structure FilterDocState where
  usedVariables : List String
  usedFragments : List String
  newOperations : List OperationM
  newFragments : List FragmentM
  fragmentSet : List String

def filterOperationStep (fuel : Nat) (S : SchemaM) (validFragments : List FragmentM)
    (VF : List (String × String)) (acc : Option FilterDocState)
    (operation : OperationM) : Option FilterDocState :=
  match acc with
  | none => none
  | some st =>
    match rootTypeFor S operation.operation with
    | none => none
    | some rootTypeName =>
      match filterSels S VF rootTypeName operation.selectionSet ⟨[], []⟩ with
      | none => none
      | some (selectionSet2, opState) =>
        let usedFragments2 := unionStr st.usedFragments opState.usedFragments
        match collectFragmentVariables S validFragments VF fuel st.fragmentSet
            usedFragments2 [] [] with
        | none => none
        | some (collectedUsedVariables, collectedNewFragments, collectedFragmentSet) =>
          let operationOrFragmentVariables :=
            unionStr opState.usedVariables collectedUsedVariables
          let usedVariables2 := unionStr st.usedVariables operationOrFragmentVariables
          let variableDefinitions2 := operation.variableDefinitions.filter
            (fun v => operationOrFragmentVariables.contains v)
          some
            { usedVariables := usedVariables2
              usedFragments := usedFragments2
              newOperations := st.newOperations ++
                [{ operation := operation.operation, name := operation.name,
                   variableDefinitions := variableDefinitions2,
                   selectionSet := selectionSet2 }]
              newFragments := collectedNewFragments
              fragmentSet := collectedFragmentSet }

/-- `filterToSchema(targetSchema, document, variables)`. -/
def filterToSchema (fuel : Nat) (S : SchemaM) (document : DocumentM)
    (variableValues : List (String × String)) :
    Option (DocumentM × List (String × String)) :=
  let operations := document.operations
  let validFragments := docValidFragments S document
  let VF := docVF S document
  match operations.foldl (filterOperationStep fuel S validFragments VF)
      (some { usedVariables := [], usedFragments := [], newOperations := [],
              newFragments := [], fragmentSet := [] }) with
  | none => none
  | some st =>
    let newVariables := st.usedVariables.foldl (fun acc name =>
      match lookupA variableValues name with
      | some v => upsertA acc name v
      | none => acc) []
    some
      ({ definitions := st.newOperations.map DefinitionM.op
          ++ st.newFragments.map DefinitionM.frag },
       newVariables)

mutual

/-- Well-formedness of a filtered selection w.r.t. the target schema: every
field exists on its (composite) parent with only declared arguments,
composite-returning fields keep a non-empty selection set, fragment spreads
are valid and apply to the parent, inline-fragment conditions name the
(composite) parent, and no field sits under a non-composite parent. -/
def selOutOk (S : SchemaM) (VF : List (String × String)) : String → SelectionM → Bool
  | parent, SelectionM.field name _ args subsel =>
    match lookupA S.types parent with
    | none => false
    | some tdef =>
      match fieldDefFor tdef name with
      | none => false
      | some fdef =>
        args.all (fun a => fdef.argNames.contains a.name)
        && (match subsel with
            | none => ¬ isComposite S fdef.returnTypeName
            | some sub =>
              (if isComposite S fdef.returnTypeName then ¬ sub.isEmpty else true)
              && selsOutOk S VF fdef.returnTypeName sub)
  | parent, SelectionM.inlineFrag typeCond sub =>
    (match typeCond with
     | some c => decide (c = parent) && isComposite S parent
     | none => true)
    && selsOutOk S VF (match typeCond with | some c => c | none => parent) sub
  | parent, SelectionM.spread name =>
    match lookupA VF name with
    | none => false
    | some cond => decide (cond = parent) && isComposite S parent

def selsOutOk (S : SchemaM) (VF : List (String × String)) :
    String → List SelectionM → Bool
  | _, [] => true
  | parent, s :: rest => selOutOk S VF parent s && selsOutOk S VF parent rest

end

theorem erase_middle_perm (l0 r : List String) (x : String) :
    List.Perm ((l0 ++ x :: r).erase x) (l0 ++ r) := by
  by_cases hx : x ∈ l0
  · rw [List.erase_append_left _ hx]
    have h1 : List.Perm (l0.erase x ++ x :: r) (x :: (l0.erase x ++ r)) :=
      List.perm_middle
    have h2 : List.Perm l0 (x :: l0.erase x) := List.perm_cons_erase hx
    have h3 : List.Perm (l0 ++ r) (x :: l0.erase x ++ r) := h2.append_right r
    exact h1.trans h3.symm
  · rw [List.erase_append_right _ hx, List.erase_cons_head]

theorem eraseAllStr_perm :
    ∀ (r l l0 : List String), List.Perm l (l0 ++ r) →
      List.Perm (eraseAllStr l r) l0 := by
  intro r
  induction r with
  | nil =>
    intro l l0 h
    simpa [eraseAllStr] using h
  | cons x r2 ih =>
    intro l l0 h
    show List.Perm (eraseAllStr (l.erase x) r2) l0
    apply ih
    exact (h.erase x).trans (erase_middle_perm l0 r2 x)
theorem filter_all_self (p : ArgM → Bool) (l : List ArgM) :
    (l.filter p).all p = true := by
  simp [List.all_eq_true, List.mem_filter]

theorem filterSels_spec (S : SchemaM) (VF : List (String × String)) :
    ∀ (parent : String) (sels : List SelectionM) (st : FilterState)
      (out : List SelectionM) (st2 : FilterState),
      filterSels S VF parent sels st = some (out, st2) →
      selsOutOk S VF parent out = true
      ∧ st2.usedFragments = st.usedFragments ++ fragsOfSels out
      ∧ List.Perm st2.usedVariables (st.usedVariables ++ varsOfSels out) := by
  intro parent sels st
  induction parent, sels, st using filterSels.induct S VF
  all_goals intro out st2 heq
  all_goals rw [filterSels] at heq
  all_goals try simp only [*, if_true, if_false] at heq
  all_goals try solve_by_elim
  all_goals try exact Option.noConfusion heq
  case case1 =>
    rename_i parent st0
    cases heq
    refine ⟨by simp only [selsOutOk], by simp [fragsOfSels], ?_⟩
    simp only [varsOfSels, List.append_nil]
    exact List.Perm.refl _
  case case3 =>
    rename_i parent name alias0 args rest st0 tdef hlook fdef hfdef args2 st1 hcomp stx ih
    obtain ⟨hok, hfr, hpv⟩ := ih out st2 heq
    have hp1 : List.Perm
        (eraseAllStr (st0.usedVariables ++ varsOfArgs args2) (varsOfArgs args2))
        st0.usedVariables :=
      eraseAllStr_perm _ _ _ (List.Perm.refl _)
    exact ⟨hok, hfr, hpv.trans (hp1.append_right _)⟩
  case case5 =>
    rename_i parent name alias0 args rest st0 tdef hlook fdef hfdef args2 st1 hncomp outk st2k hrec ih
    rw [if_neg (by decide : ¬ false = true)] at heq
    cases heq
    obtain ⟨hok, hfr, hpv⟩ := ih _ _ hrec
    refine ⟨?_, ?_, ?_⟩
    · simp only [selsOutOk, selOutOk, hlook, hfdef, Bool.and_eq_true, decide_eq_true_eq]
      exact ⟨⟨filter_all_self _ _, hncomp⟩, hok⟩
    · simp only [fragsOfSels, fragsOfSel, List.nil_append]
      exact hfr
    · simp only [varsOfSels, varsOfSel]
      rw [← List.append_assoc]
      exact hpv
  case case7 =>
    rename_i parent name alias0 args rest st0 tdef hlook fdef hfdef args2 st1 fs outk st2k hsub hce st3 ihsub ih
    rw [if_pos ⟨trivial, trivial⟩] at heq
    have hnil : outk = [] := by
      have h0 := hce.2
      simpa using h0
    subst hnil
    obtain ⟨hok, hfr, hpv⟩ := ih out st2 heq
    obtain ⟨hoks, hfrs, hpvs⟩ := ihsub _ _ hsub
    have hfrs2 : st2k.usedFragments = st0.usedFragments := by
      have h0 := hfrs
      simp only [fragsOfSels, List.append_nil] at h0
      exact h0
    have hpvs2 : List.Perm st2k.usedVariables (st0.usedVariables ++ varsOfArgs args2) := by
      have h0 := hpvs
      simp only [varsOfSels, List.append_nil] at h0
      exact h0
    have hp3 : List.Perm
        (eraseAllStr st2k.usedVariables (varsOfArgs args2 ++ varsOfSels []))
        st0.usedVariables := by
      apply eraseAllStr_perm
      simp only [varsOfSels, List.append_nil]
      exact hpvs2
    refine ⟨hok, ?_, hpv.trans (hp3.append_right _)⟩
    rw [hfr]
    show st2k.usedFragments ++ fragsOfSels out = st0.usedFragments ++ fragsOfSels out
    rw [hfrs2]
  case case9 =>
    rename_i parent name alias0 args rest st0 tdef hlook fdef hfdef args2 st1 fs outk1 st2k1 hsub hnce outk st2k hrest ihsub ih
    cases heq
    obtain ⟨hoks, hfrs, hpvs⟩ := ihsub _ _ hsub
    obtain ⟨hok, hfr, hpv⟩ := ih _ _ hrest
    refine ⟨?_, ?_, ?_⟩
    · simp only [selsOutOk, selOutOk, hlook, hfdef, Bool.and_eq_true]
      refine ⟨⟨filter_all_self _ _, ?_, hoks⟩, hok⟩
      by_cases hc : isComposite S fdef.returnTypeName = true
      · rw [if_pos hc]
        simp only [decide_eq_true_eq]
        exact fun hemp => hnce ⟨hc, hemp⟩
      · rw [if_neg hc]
    · simp only [fragsOfSels, fragsOfSel]
      rw [hfr, hfrs, List.append_assoc]
    · simp only [varsOfSels, varsOfSel]
      rw [← List.append_assoc, ← List.append_assoc]
      exact hpv.trans (hpvs.append_right _)
  case case11 =>
    rename_i parent sub rest st0 c hcp hsub ih
    obtain ⟨hc, hcomp⟩ := hcp
    subst hc
    rw [if_pos ⟨trivial, trivial⟩] at heq
    rw [hsub] at heq
    exact Option.noConfusion heq
  case case12 =>
    rename_i parent sub rest st0 c hcp outk1 st2k1 hsub hrn ihsub ih
    obtain ⟨hc, hcomp⟩ := hcp
    subst hc
    rw [if_pos ⟨trivial, trivial⟩] at heq
    simp only [hsub, hrn] at heq
    exact Option.noConfusion heq
  case case13 =>
    rename_i parent sub rest st0 c hcp outk1 st2k1 hsub outk st2k hrest ihsub ih
    obtain ⟨hc, hcomp⟩ := hcp
    subst hc
    rw [if_pos ⟨trivial, trivial⟩] at heq
    simp only [hsub, hrest] at heq
    cases heq
    obtain ⟨hoks, hfrs, hpvs⟩ := ihsub _ _ hsub
    obtain ⟨hok, hfr, hpv⟩ := ih _ _ hrest
    refine ⟨?_, ?_, ?_⟩
    · simp only [selsOutOk, selOutOk, Bool.and_eq_true, decide_eq_true_eq]
      exact ⟨⟨⟨trivial, hcomp⟩, hoks⟩, hok⟩
    · simp only [fragsOfSels, fragsOfSel]
      rw [hfr, hfrs, List.append_assoc]
    · simp only [varsOfSels, varsOfSel]
      rw [← List.append_assoc]
      exact hpv.trans (hpvs.append_right _)
  case case17 =>
    rename_i parent sub rest st0 outk1 st2k1 hsub outk st2k hrest ihsub ih
    cases heq
    obtain ⟨hoks, hfrs, hpvs⟩ := ihsub _ _ hsub
    obtain ⟨hok, hfr, hpv⟩ := ih _ _ hrest
    refine ⟨?_, ?_, ?_⟩
    · simp only [selsOutOk, selOutOk, Bool.true_and, Bool.and_eq_true]
      exact ⟨hoks, hok⟩
    · simp only [fragsOfSels, fragsOfSel]
      rw [hfr, hfrs, List.append_assoc]
    · simp only [varsOfSels, varsOfSel]
      rw [← List.append_assoc]
      exact hpv.trans (hpvs.append_right _)
  case case19 =>
    rename_i parent name rest st0 c hlookVF hcp st1 outk st2k hrest ih
    obtain ⟨hc, hcomp⟩ := hcp
    subst hc
    rw [if_pos ⟨trivial, trivial⟩] at heq
    cases heq
    obtain ⟨hok, hfr, hpv⟩ := ih _ _ hrest
    refine ⟨?_, ?_, ?_⟩
    · simp only [selsOutOk, selOutOk, hlookVF, Bool.and_eq_true, decide_eq_true_eq]
      exact ⟨⟨trivial, hcomp⟩, hok⟩
    · simp only [fragsOfSels, fragsOfSel]
      rw [hfr]
      rw [← List.append_assoc]
    · simp only [varsOfSels, varsOfSel, List.nil_append]
      exact hpv

theorem strContains_iff (l : List String) (x : String) :
    l.contains x = true ↔ x ∈ l := by
  simp [List.contains_eq_any_beq, List.any_eq_true, beq_iff_eq, eq_comm]

theorem mem_dedup_foldl (l : List String) :
    ∀ (acc : List String) (x : String),
      x ∈ l.foldl (fun acc y => if acc.contains y then acc else acc ++ [y]) acc
      ↔ (x ∈ acc ∨ x ∈ l) := by
  induction l with
  | nil => intro acc x; simp
  | cons y l2 ih =>
    intro acc x
    simp only [List.foldl_cons]
    rw [ih]
    by_cases hy : acc.contains y = true
    · rw [if_pos hy]
      rw [strContains_iff] at hy
      constructor
      · rintro (h | h)
        · exact Or.inl h
        · exact Or.inr (List.mem_cons_of_mem _ h)
      · rintro (h | h)
        · exact Or.inl h
        · rcases List.mem_cons.mp h with h2 | h2
          · exact Or.inl (h2 ▸ hy)
          · exact Or.inr h2
    · rw [if_neg hy]
      simp only [List.mem_append, List.mem_singleton, List.mem_cons]
      tauto

theorem mem_dedupKeepFirst (l : List String) (x : String) :
    x ∈ dedupKeepFirst l ↔ x ∈ l := by
  unfold dedupKeepFirst
  rw [mem_dedup_foldl]
  simp

theorem mem_unionStr (a b : List String) (x : String) :
    x ∈ unionStr a b ↔ x ∈ a ∨ x ∈ b := by
  unfold unionStr
  rw [mem_dedupKeepFirst]
  exact List.mem_append

/-- A collected fragment is the faithful filtering of the first valid
fragment of its name: its type condition exists in the schema and its body
is the `filterSelectionSet` output of that fragment's body. -/
def fragBodyOk (S : SchemaM) (validFragments : List FragmentM)
    (VF : List (String × String)) (fr : FragmentM) : Prop :=
  ∃ origFr st1,
    validFragments.find? (fun f => f.name = fr.name) = some origFr
    ∧ isComposite S origFr.typeCondition = true
    ∧ origFr.typeCondition = fr.typeCondition
    ∧ filterSels S VF origFr.typeCondition origFr.selectionSet ⟨[], []⟩
        = some (fr.selectionSet, st1)

theorem cfv_main (S : SchemaM) (validFragments : List FragmentM)
    (VF : List (String × String))
    (hnames : ∀ fr ∈ validFragments, fr.name ≠ "") :
    ∀ (fuel : Nat) (fragmentSet remainingFragments usedVariables : List String)
      (newFragments : List FragmentM) (uv2 : List String) (nf2 : List FragmentM)
      (fs2 : List String),
      collectFragmentVariables S validFragments VF fuel fragmentSet
          remainingFragments usedVariables newFragments = some (uv2, nf2, fs2) →
      (∀ fr ∈ newFragments, fragBodyOk S validFragments VF fr) →
      (∀ fr ∈ nf2, fragBodyOk S validFragments VF fr)
      ∧ (∃ pre, nf2 = newFragments ++ pre)
      ∧ ((∀ n ∈ fragmentSet, ∃ fr ∈ newFragments, fr.name = n) →
           (∀ v ∈ uv2, v ∈ usedVariables ∨ ∃ fr ∈ nf2, v ∈ varsOfSels fr.selectionSet)
           ∧ (∀ n ∈ fs2, ∃ fr ∈ nf2, fr.name = n)) := by
  intro fuel fragmentSet remainingFragments usedVariables newFragments
  induction fuel, fragmentSet, remainingFragments, usedVariables, newFragments
    using collectFragmentVariables.induct S validFragments VF
  all_goals intro uv2 nf2 fs2 heq hnf
  all_goals rw [collectFragmentVariables] at heq
  all_goals try simp only [*] at heq
  all_goals try exact Option.noConfusion heq
  case case1 =>
    cases heq
    refine ⟨hnf, ⟨[], by simp⟩, ?_⟩
    intro hINV
    exact ⟨fun v hv => Or.inl hv, hINV⟩
  case case3 =>
    rename_i fs0 rem0 uv0 nf0 n hlast fuel2 rem2 hfindnone ih
    exact ih uv2 nf2 fs2 heq hnf
  case case6 =>
    rename_i fs0 rem0 uv0 nf0 n hlast fuel2 rem2 fragment hfind hcompne outk stk hflt rem3 uvar2 hcond ih
    rw [if_neg (by decide : ¬ true = false)] at heq
    rw [if_pos ⟨hcond.1, by decide⟩] at heq
    have hcomp : isComposite S fragment.typeCondition = true := by
      simpa using hcompne
    have hfragOk : fragBodyOk S validFragments VF
        { name := n, typeCondition := fragment.typeCondition, selectionSet := outk } := by
      exact ⟨fragment, stk, hfind, hcomp, rfl, hflt⟩
    have hnf2in : ∀ fr ∈ nf0 ++
        [{ name := n, typeCondition := fragment.typeCondition, selectionSet := outk }],
        fragBodyOk S validFragments VF fr := by
      intro fr hfr
      rcases List.mem_append.mp hfr with h | h
      · exact hnf fr h
      · rcases List.mem_singleton.mp h with rfl
        exact hfragOk
    obtain ⟨hA, ⟨pre, hpre⟩, hC⟩ := ih uv2 nf2 fs2 heq hnf2in
    have hpre2 : nf2 = nf0 ++
        ({ name := n, typeCondition := fragment.typeCondition, selectionSet := outk } :: pre) := by
      rw [hpre]
      simp
    refine ⟨hA, ⟨_, hpre2⟩, ?_⟩
    intro hINV
    have hINV2 : ∀ m ∈ fs0 ++ [n], ∃ fr ∈ nf0 ++
        [{ name := n, typeCondition := fragment.typeCondition, selectionSet := outk }],
        fr.name = m := by
      intro m hm
      rcases List.mem_append.mp hm with h | h
      · obtain ⟨fr, hfr, hname⟩ := hINV m h
        exact ⟨fr, List.mem_append_left _ hfr, hname⟩
      · rcases List.mem_singleton.mp h with rfl
        exact ⟨_, List.mem_append_right _ (List.mem_singleton_self _), rfl⟩
    obtain ⟨hv, hd⟩ := hC hINV2
    refine ⟨?_, hd⟩
    intro v hv2
    rcases hv v hv2 with h | h
    · rcases (mem_unionStr _ _ _).mp h with h2 | h2
      · exact Or.inl h2
      · have hperm := (filterSels_spec S VF _ _ _ _ _ hflt).2.2
        have hv3 : v ∈ varsOfSels outk := by
          have h4 := hperm.mem_iff.mp h2
          simpa using h4
        have hmem :
            ({ name := n, typeCondition := fragment.typeCondition, selectionSet := outk } : FragmentM) ∈ nf2 := by
          rw [hpre]
          exact List.mem_append_left _
            (List.mem_append_right _ (List.mem_singleton_self _))
        exact Or.inr ⟨_, hmem, hv3⟩
    · exact Or.inr h
  case case7 =>
    rename_i fs0 rem0 uv0 nf0 n hlast fuel2 rem2 fragment hfind hcompne outk stk hflt rem3 uvar2 hcond ih
    rw [if_neg (by decide : ¬ true = false)] at heq
    rw [if_neg not_false] at heq
    obtain ⟨hA, ⟨pre, hpre⟩, hC⟩ := ih uv2 nf2 fs2 heq hnf
    refine ⟨hA, ⟨pre, hpre⟩, ?_⟩
    intro hINV
    have hfragmem : fragment ∈ validFragments := List.mem_of_find?_eq_some hfind
    have hnamen : fragment.name = n := by
      have h0 := List.find?_some hfind
      simpa using h0
    have hne : n ≠ "" := hnamen ▸ hnames fragment hfragmem
    have hin : n ∈ fs0 := by
      by_contra hnot
      exact hcond ⟨hne, fun hcont => hnot ((strContains_iff _ _).mp hcont)⟩
    obtain ⟨fr0, hfr0, hfr0name⟩ := hINV n hin
    obtain ⟨origFr, st1, hfind0, hcomp0, hcond0, hflt0⟩ := hnf fr0 hfr0
    rw [hfr0name] at hfind0
    have horig : origFr = fragment := by
      rw [hfind0] at hfind
      exact Option.some.inj hfind
    subst horig
    rw [hflt0] at hflt
    injection hflt with h1
    injection h1 with hsel hst
    subst hst
    obtain ⟨hv, hd⟩ := hC hINV
    refine ⟨?_, hd⟩
    intro v hv2
    rcases hv v hv2 with h | h
    · rcases (mem_unionStr _ _ _).mp h with h2 | h2
      · exact Or.inl h2
      · have hperm := (filterSels_spec S VF _ _ _ _ _ hflt0).2.2
        refine Or.inr ⟨fr0, by rw [hpre]; exact List.mem_append_left _ hfr0, ?_⟩
        have h4 := hperm.mem_iff.mp h2
        simpa using h4
    · exact Or.inr h

theorem operations_of_build (a : List OperationM) (b : List FragmentM) :
    DocumentM.operations ⟨a.map DefinitionM.op ++ b.map DefinitionM.frag⟩ = a := by
  simp only [DocumentM.operations, List.filterMap_append, List.filterMap_map]
  have h1 : List.filterMap
      ((fun d => match d with | DefinitionM.op o => some o | _ => none) ∘ DefinitionM.op) a
      = a := by
    induction a with
    | nil => rfl
    | cons x a2 ih => simp only [List.filterMap_cons, Function.comp]; rw [ih]
  have h2 : List.filterMap
      ((fun d => match d with | DefinitionM.op o => some o | _ => none) ∘ DefinitionM.frag) b
      = [] := by
    induction b with
    | nil => rfl
    | cons x b2 ih => simp only [List.filterMap_cons, Function.comp]; rw [ih]
  rw [h1, h2, List.append_nil]

theorem fragments_of_build (a : List OperationM) (b : List FragmentM) :
    DocumentM.fragments ⟨a.map DefinitionM.op ++ b.map DefinitionM.frag⟩ = b := by
  simp only [DocumentM.fragments, List.filterMap_append, List.filterMap_map]
  have h1 : List.filterMap
      ((fun d => match d with | DefinitionM.frag f => some f | _ => none) ∘ DefinitionM.op) a
      = [] := by
    induction a with
    | nil => rfl
    | cons x a2 ih => simp only [List.filterMap_cons, Function.comp]; rw [ih]
  have h2 : List.filterMap
      ((fun d => match d with | DefinitionM.frag f => some f | _ => none) ∘ DefinitionM.frag) b
      = b := by
    induction b with
    | nil => rfl
    | cons x b2 ih => simp only [List.filterMap_cons, Function.comp]; rw [ih]
  rw [h1, h2, List.nil_append]

theorem filterOperationStep_some_inv (fuel : Nat) (S : SchemaM)
    (validFragments : List FragmentM) (VF : List (String × String))
    (st0 : FilterDocState) (op : OperationM) (st1 : FilterDocState)
    (h : filterOperationStep fuel S validFragments VF (some st0) op = some st1) :
    ∃ rootTypeName sels2 opState cuv cnf cfs,
      rootTypeFor S op.operation = some rootTypeName
      ∧ filterSels S VF rootTypeName op.selectionSet ⟨[], []⟩ = some (sels2, opState)
      ∧ collectFragmentVariables S validFragments VF fuel st0.fragmentSet
          (unionStr st0.usedFragments opState.usedFragments) [] [] = some (cuv, cnf, cfs)
      ∧ st1.newOperations = st0.newOperations ++
          [{ operation := op.operation, name := op.name,
             variableDefinitions := op.variableDefinitions.filter
               (fun v => (unionStr opState.usedVariables cuv).contains v),
             selectionSet := sels2 }]
      ∧ st1.newFragments = cnf := by
  rw [filterOperationStep] at h
  split at h
  · exact Option.noConfusion h
  · rename_i rootTypeName hrt
    split at h
    · exact Option.noConfusion h
    · rename_i xp sels2 opState hfs
      dsimp only at h
      split at h
      · exact Option.noConfusion h
      · rename_i xt cuv cnf cfs hcfv
        cases h
        exact ⟨rootTypeName, sels2, opState, cuv, cnf, cfs, hrt, hfs, hcfv, rfl, rfl⟩

/-- C4 (amended): for a single-operation document whose fragments all have
nonempty names, the FilterToSchema output is entirely within the target
schema: every output operation resolves its root type and satisfies
`selsOutOk` (no unknown fields, no unknown arguments, no invalid fragment
spreads or inline conditions, no composite field with an emptied selection
set), every output fragment definition has a composite type condition and a
schema-conforming body, and every kept variable definition is used by the
output operation or by an output fragment.  For multi-operation documents
the unused-variable-definitions clause of the original claim fails, because
`newFragments = collectedNewFragments` overwrites (rather than extends) the
fragments collected for earlier operations. -/
theorem filterToSchema_single_op_in_schema
    (fuel : Nat) (S : SchemaM) (doc : DocumentM)
    (variableValues : List (String × String))
    (doc2 : DocumentM) (vars2 : List (String × String)) (op : OperationM)
    (hsingle : doc.operations = [op])
    (hnames : ∀ fr ∈ doc.fragments, fr.name ≠ "")
    (hrun : filterToSchema fuel S doc variableValues = some (doc2, vars2)) :
    (∀ o2 ∈ doc2.operations,
       ∃ rt, rootTypeFor S o2.operation = some rt
         ∧ selsOutOk S (docVF S doc) rt o2.selectionSet = true)
    ∧ (∀ fr2 ∈ doc2.fragments,
         isComposite S fr2.typeCondition = true
         ∧ selsOutOk S (docVF S doc) fr2.typeCondition fr2.selectionSet = true)
    ∧ (∀ o2 ∈ doc2.operations, ∀ v ∈ o2.variableDefinitions,
         v ∈ varsOfSels o2.selectionSet
         ∨ ∃ fr2 ∈ doc2.fragments, v ∈ varsOfSels fr2.selectionSet) := by
  rw [filterToSchema] at hrun
  rw [hsingle] at hrun
  simp only [List.foldl_cons, List.foldl_nil] at hrun
  split at hrun
  · exact Option.noConfusion hrun
  · rename_i st hstep
    obtain ⟨rootTypeName, sels2, opState, cuv, cnf, cfs, hrt, hfs, hcfv, hops, hnfs⟩ :=
      filterOperationStep_some_inv _ _ _ _ _ _ _ hstep
    injection hrun with hpair
    injection hpair with hdoc hvars
    subst hdoc
    have hnames2 : ∀ fr ∈ docValidFragments S doc, fr.name ≠ "" := by
      intro fr hfr
      exact hnames fr (List.mem_of_mem_filter hfr)
    obtain ⟨hnfOk, ⟨pre, hpre⟩, hC⟩ :=
      cfv_main S (docValidFragments S doc) (docVF S doc) hnames2 fuel _ _ _ _ _ _ _ hcfv
        (by intro fr h; cases h)
    obtain ⟨hvarsC, hdomC⟩ := hC (by intro m h; cases h)
    obtain ⟨hselOk, hfrEq, hvarsPerm⟩ := filterSels_spec S (docVF S doc) _ _ _ _ _ hfs
    have hopseq : ∀ d2ops, d2ops = st.newOperations →
        ∀ o2 ∈ d2ops, o2.operation = op.operation
          ∧ o2.selectionSet = sels2
          ∧ o2.variableDefinitions = op.variableDefinitions.filter
              (fun v => (unionStr opState.usedVariables cuv).contains v) := by
      intro d2ops hd2 o2 ho2
      rw [hd2, hops] at ho2
      simp only [List.nil_append, List.mem_singleton] at ho2
      subst ho2
      exact ⟨rfl, rfl, rfl⟩
    have hop2 := hopseq _ (operations_of_build st.newOperations st.newFragments)
    have hfrag2 : DocumentM.fragments
        ⟨st.newOperations.map DefinitionM.op ++ st.newFragments.map DefinitionM.frag⟩
        = cnf := by
      rw [fragments_of_build, hnfs]
    refine ⟨?_, ?_, ?_⟩
    · intro o2 ho2
      obtain ⟨he1, he2, he3⟩ := hop2 o2 ho2
      refine ⟨rootTypeName, ?_, ?_⟩
      · rw [he1]
        exact hrt
      · rw [he2]
        exact hselOk
    · intro fr2 hfr2
      rw [hfrag2] at hfr2
      obtain ⟨origFr, st1, hfind, hcomp, hcondEq, hflt⟩ := hnfOk fr2 hfr2
      refine ⟨hcondEq ▸ hcomp, ?_⟩
      have h2 := (filterSels_spec S (docVF S doc) _ _ _ _ _ hflt).1
      rw [← hcondEq]
      exact h2
    · intro o2 ho2 v hv
      obtain ⟨he1, he2, he3⟩ := hop2 o2 ho2
      rw [he3] at hv
      obtain ⟨hvdef, hvmem⟩ := List.mem_filter.mp hv
      rw [strContains_iff] at hvmem
      rcases (mem_unionStr _ _ _).mp hvmem with h2 | h2
      · left
        rw [he2]
        have h3 := hvarsPerm.mem_iff.mp h2
        simpa using h3
      · rcases hvarsC v h2 with h3 | h3
        · cases h3
        · obtain ⟨fr2, hfr2, hv2⟩ := h3
          right
          refine ⟨fr2, ?_, hv2⟩
          rw [hfrag2]
          exact hfr2

/-- Concrete target schema for the FilterToSchema evaluations: a `Query` type
with one field `a(x: Int): Int`. -/
def cS : SchemaM :=
  { types := [("Query", [("a", { returnTypeName := "Int", argNames := ["x"] })])],
    queryTypeName := some "Query", mutationTypeName := none,
    subscriptionTypeName := none }

/-- `fragment F on Query { a(x: $v) }`. -/
def cFragF : FragmentM :=
  { name := "F", typeCondition := "Query",
    selectionSet := [SelectionM.field "a" none [{ name := "x", value := ValueM.var "v" }] none] }

/-- `query ($v: Int) { ...F }`. -/
def cOp1 : OperationM :=
  { operation := OpType.query, name := none, variableDefinitions := ["v"],
    selectionSet := [SelectionM.spread "F"] }

/-- `query { a }`. -/
def cOp2 : OperationM :=
  { operation := OpType.query, name := none, variableDefinitions := [],
    selectionSet := [SelectionM.field "a" none [] none] }

/-- Two operations followed by the fragment both of them may use. -/
def cDoc : DocumentM :=
  { definitions := [DefinitionM.op cOp1, DefinitionM.op cOp2, DefinitionM.frag cFragF] }

/-- The single-operation variant. -/
def cDocS : DocumentM :=
  { definitions := [DefinitionM.op cOp1, DefinitionM.frag cFragF] }

def cVars : List (String × String) := [("v", "3")]

def cVF : List (String × String) := [("F", "Query")]

theorem hcVF : docVF cS cDoc = cVF := by rfl

theorem heval1 : filterSels cS cVF "Query" [SelectionM.spread "F"] ⟨[], []⟩
    = some ([SelectionM.spread "F"], ⟨[], ["F"]⟩) := by
  simp only [filterSels, cS, cVF, lookupA, fieldDefFor, isComposite, varsOfArgs,
    eraseAllStr, metaFieldDef, String.reduceEq, List.foldl]
  rfl

theorem heval2 : filterSels cS cVF "Query"
    [SelectionM.field "a" none [{ name := "x", value := ValueM.var "v" }] none] ⟨[], []⟩
    = some ([SelectionM.field "a" none [{ name := "x", value := ValueM.var "v" }] none],
        ⟨["v"], []⟩) := by
  simp only [filterSels, cS, cVF, lookupA, fieldDefFor, isComposite, varsOfArgs,
    eraseAllStr, metaFieldDef, String.reduceEq, List.foldl]
  rfl

theorem heval3 : filterSels cS cVF "Query" [SelectionM.field "a" none [] none] ⟨[], []⟩
    = some ([SelectionM.field "a" none [] none], ⟨[], []⟩) := by
  simp only [filterSels, cS, cVF, lookupA, fieldDefFor, isComposite, varsOfArgs,
    eraseAllStr, metaFieldDef, String.reduceEq, List.foldl]
  rfl

theorem hcVFrags : docValidFragments cS cDoc = [cFragF] := by rfl

theorem hcompQ : isComposite cS "Query" = true := by rfl

theorem hrootQ : rootTypeFor cS OpType.query = some "Query" := by rfl

theorem hOpsList : DocumentM.operations cDoc = [cOp1, cOp2] := by rfl

theorem hOpsListS : DocumentM.operations cDocS = [cOp1] := by rfl

theorem hcVFS : docVF cS cDocS = cVF := by rfl

theorem hcVFragsS : docValidFragments cS cDocS = [cFragF] := by rfl

theorem hop1sel : cOp1.selectionSet = [SelectionM.spread "F"] := by rfl

theorem hop2sel : cOp2.selectionSet = [SelectionM.field "a" none [] none] := by rfl

theorem hop1op : rootTypeFor cS cOp1.operation = some "Query" := by rfl

theorem hop2op : rootTypeFor cS cOp2.operation = some "Query" := by rfl

theorem hop1vd : cOp1.variableDefinitions = ["v"] := by rfl

theorem hop2vd : cOp2.variableDefinitions = ([] : List String) := by rfl

theorem hfragname : cFragF.name = "F" := by rfl

theorem hfragcond : cFragF.typeCondition = "Query" := by rfl

theorem hfragsel : cFragF.selectionSet
    = [SelectionM.field "a" none [{ name := "x", value := ValueM.var "v" }] none] := by rfl

theorem hlookv : lookupA cVars "v" = some "3" := by rfl

theorem hlastF : (["F"] : List String).getLast? = some "F" := by rfl

theorem hlastNil : (([] : List String)).getLast? = none := by rfl

theorem hdropF : (["F"] : List String).dropLast = [] := by rfl

/-- The document produced by running `filterToSchema` on `cDoc`: both
operations survive with their selections intact, operation 1 keeps its `$v`
variable definition, and the fragment definition `F` is gone (overwritten by
the second operation's collected fragments). -/
def cOut1 : DocumentM :=
  { definitions :=
      [DefinitionM.op
        { operation := OpType.query, name := none, variableDefinitions := ["v"],
          selectionSet := [SelectionM.spread "F"] },
       DefinitionM.op
        { operation := OpType.query, name := none, variableDefinitions := [],
          selectionSet := [SelectionM.field "a" none [] none] }] }

/-- The document produced by re-running `filterToSchema` on `cOut1`: the
dangling spread `...F` and the variable definition `$v` are now dropped. -/
def cOut2 : DocumentM :=
  { definitions :=
      [DefinitionM.op
        { operation := OpType.query, name := none, variableDefinitions := [],
          selectionSet := [] },
       DefinitionM.op
        { operation := OpType.query, name := none, variableDefinitions := [],
          selectionSet := [SelectionM.field "a" none [] none] }] }

/-- Output of `filterToSchema` on the single-operation document `cDocS`. -/
def cOutS : DocumentM :=
  { definitions :=
      [DefinitionM.op
        { operation := OpType.query, name := none, variableDefinitions := ["v"],
          selectionSet := [SelectionM.spread "F"] },
       DefinitionM.frag
        { name := "F", typeCondition := "Query",
          selectionSet :=
            [SelectionM.field "a" none [{ name := "x", value := ValueM.var "v" }] none] }] }

theorem hOut1ops : DocumentM.operations cOut1 =
    [{ operation := OpType.query, name := none, variableDefinitions := ["v"],
       selectionSet := [SelectionM.spread "F"] },
     { operation := OpType.query, name := none, variableDefinitions := [],
       selectionSet := [SelectionM.field "a" none [] none] }] := by rfl

theorem hOut1VF : docVF cS cOut1 = [] := by rfl

theorem hOut1VFrags : docValidFragments cS cOut1 = [] := by rfl

theorem heval4 : filterSels cS [] "Query" [SelectionM.spread "F"] ⟨[], []⟩
    = some ([], ⟨[], []⟩) := by
  simp only [filterSels, cS, lookupA, fieldDefFor, isComposite, varsOfArgs,
    eraseAllStr, metaFieldDef, String.reduceEq, List.foldl]

theorem heval5 : filterSels cS [] "Query" [SelectionM.field "a" none [] none] ⟨[], []⟩
    = some ([SelectionM.field "a" none [] none], ⟨[], []⟩) := by
  simp only [filterSels, cS, lookupA, fieldDefFor, isComposite, varsOfArgs,
    eraseAllStr, metaFieldDef, String.reduceEq, List.foldl]
  rfl

set_option maxHeartbeats 2000000 in
theorem cEval1 : filterToSchema 4 cS cDoc cVars = some (cOut1, [("v", "3")]) := by
  rw [filterToSchema]
  simp only [heval1, heval2, heval3, hcVF, hcVFrags, hcompQ, hOpsList, hop1sel, hop2sel,
    hop1op, hop2op, hop1vd, hop2vd, hfragname, hfragcond, hfragsel, hlookv,
    unionStr, dedupKeepFirst, List.foldl, List.filterMap, List.filter, List.find?,
    hlastF, hlastNil, hdropF, List.map, List.contains, List.elem,
    String.reduceEq, reduceIte, ne_eq, lookupA, upsertA, decide_True, decide_False,
    not_false_eq_true, not_true_eq_false,
    Bool.false_eq_true, Bool.true_eq_false, List.nil_append, List.append_nil,
    List.cons_append, List.singleton_append, and_self, and_true, true_and,
    if_true, if_false, String.reduceBEq, beq_self_eq_true, List.append_eq]
  rw [filterOperationStep.eq_def]
  rw [filterOperationStep.eq_def]
  simp only [heval1, heval2, heval3, hcVF, hcVFrags, hcompQ, hOpsList, hop1sel, hop2sel,
    hop1op, hop2op, hop1vd, hop2vd, hfragname, hfragcond, hfragsel, hlookv,
    unionStr, dedupKeepFirst, List.foldl, List.filterMap, List.filter, List.find?,
    hlastF, hlastNil, hdropF, List.map, List.contains, List.elem,
    String.reduceEq, reduceIte, ne_eq, lookupA, upsertA, decide_True, decide_False,
    not_false_eq_true, not_true_eq_false,
    Bool.false_eq_true, Bool.true_eq_false, List.nil_append, List.append_nil,
    List.cons_append, List.singleton_append, and_self, and_true, true_and,
    if_true, if_false, String.reduceBEq, beq_self_eq_true, List.append_eq]
  rw [collectFragmentVariables.eq_def]
  simp only [heval1, heval2, heval3, hcVF, hcVFrags, hcompQ, hOpsList, hop1sel, hop2sel,
    hop1op, hop2op, hop1vd, hop2vd, hfragname, hfragcond, hfragsel, hlookv,
    unionStr, dedupKeepFirst, List.foldl, List.filterMap, List.filter, List.find?,
    hlastF, hlastNil, hdropF, List.map, List.contains, List.elem,
    String.reduceEq, reduceIte, ne_eq, lookupA, upsertA, decide_True, decide_False,
    not_false_eq_true, not_true_eq_false,
    Bool.false_eq_true, Bool.true_eq_false, List.nil_append, List.append_nil,
    List.cons_append, List.singleton_append, and_self, and_true, true_and,
    if_true, if_false, String.reduceBEq, beq_self_eq_true, List.append_eq]
  rw [collectFragmentVariables.eq_def]
  simp only [heval1, heval2, heval3, hcVF, hcVFrags, hcompQ, hOpsList, hop1sel, hop2sel,
    hop1op, hop2op, hop1vd, hop2vd, hfragname, hfragcond, hfragsel, hlookv,
    unionStr, dedupKeepFirst, List.foldl, List.filterMap, List.filter, List.find?,
    hlastF, hlastNil, hdropF, List.map, List.contains, List.elem,
    String.reduceEq, reduceIte, ne_eq, lookupA, upsertA, decide_True, decide_False,
    not_false_eq_true, not_true_eq_false,
    Bool.false_eq_true, Bool.true_eq_false, List.nil_append, List.append_nil,
    List.cons_append, List.singleton_append, and_self, and_true, true_and,
    if_true, if_false, String.reduceBEq, beq_self_eq_true, List.append_eq]
  rw [collectFragmentVariables.eq_def]
  simp only [heval1, heval2, heval3, hcVF, hcVFrags, hcompQ, hOpsList, hop1sel, hop2sel,
    hop1op, hop2op, hop1vd, hop2vd, hfragname, hfragcond, hfragsel, hlookv,
    unionStr, dedupKeepFirst, List.foldl, List.filterMap, List.filter, List.find?,
    hlastF, hlastNil, hdropF, List.map, List.contains, List.elem,
    String.reduceEq, reduceIte, ne_eq, lookupA, upsertA, decide_True, decide_False,
    not_false_eq_true, not_true_eq_false,
    Bool.false_eq_true, Bool.true_eq_false, List.nil_append, List.append_nil,
    List.cons_append, List.singleton_append, and_self, and_true, true_and,
    if_true, if_false, String.reduceBEq, beq_self_eq_true, List.append_eq]
  rw [collectFragmentVariables.eq_def]
  simp only [heval1, heval2, heval3, hcVF, hcVFrags, hcompQ, hOpsList, hop1sel, hop2sel,
    hop1op, hop2op, hop1vd, hop2vd, hfragname, hfragcond, hfragsel, hlookv,
    unionStr, dedupKeepFirst, List.foldl, List.filterMap, List.filter, List.find?,
    hlastF, hlastNil, hdropF, List.map, List.contains, List.elem,
    String.reduceEq, reduceIte, ne_eq, lookupA, upsertA, decide_True, decide_False,
    not_false_eq_true, not_true_eq_false,
    Bool.false_eq_true, Bool.true_eq_false, List.nil_append, List.append_nil,
    List.cons_append, List.singleton_append, and_self, and_true, true_and,
    if_true, if_false, String.reduceBEq, beq_self_eq_true, List.append_eq]
  rfl

set_option maxHeartbeats 2000000 in
theorem cEval2 : filterToSchema 4 cS cOut1 [("v", "3")] = some (cOut2, []) := by
  rw [filterToSchema]
  simp only [hOut1ops, hOut1VF, hOut1VFrags, heval4, heval5, hrootQ, heval1, heval2, heval3, hcVF, hcVFrags, hcompQ, hOpsList, hop1sel, hop2sel,
    hop1op, hop2op, hop1vd, hop2vd, hfragname, hfragcond, hfragsel, hlookv,
    unionStr, dedupKeepFirst, List.foldl, List.filterMap, List.filter, List.find?,
    hlastF, hlastNil, hdropF, List.map, List.contains, List.elem,
    String.reduceEq, reduceIte, ne_eq, lookupA, upsertA, decide_True, decide_False,
    not_false_eq_true, not_true_eq_false,
    Bool.false_eq_true, Bool.true_eq_false, List.nil_append, List.append_nil,
    List.cons_append, List.singleton_append, and_self, and_true, true_and,
    if_true, if_false, String.reduceBEq, beq_self_eq_true, List.append_eq]
  rw [filterOperationStep.eq_def]
  rw [filterOperationStep.eq_def]
  simp only [hOut1ops, hOut1VF, hOut1VFrags, heval4, heval5, hrootQ, heval1, heval2, heval3, hcVF, hcVFrags, hcompQ, hOpsList, hop1sel, hop2sel,
    hop1op, hop2op, hop1vd, hop2vd, hfragname, hfragcond, hfragsel, hlookv,
    unionStr, dedupKeepFirst, List.foldl, List.filterMap, List.filter, List.find?,
    hlastF, hlastNil, hdropF, List.map, List.contains, List.elem,
    String.reduceEq, reduceIte, ne_eq, lookupA, upsertA, decide_True, decide_False,
    not_false_eq_true, not_true_eq_false,
    Bool.false_eq_true, Bool.true_eq_false, List.nil_append, List.append_nil,
    List.cons_append, List.singleton_append, and_self, and_true, true_and,
    if_true, if_false, String.reduceBEq, beq_self_eq_true, List.append_eq]
  rfl

set_option maxHeartbeats 2000000 in
theorem cEvalS : filterToSchema 4 cS cDocS cVars = some (cOutS, [("v", "3")]) := by
  rw [filterToSchema]
  simp only [hOpsListS, hcVFS, hcVFragsS, heval1, heval2, heval3, hcVF, hcVFrags, hcompQ, hOpsList, hop1sel, hop2sel,
    hop1op, hop2op, hop1vd, hop2vd, hfragname, hfragcond, hfragsel, hlookv,
    unionStr, dedupKeepFirst, List.foldl, List.filterMap, List.filter, List.find?,
    hlastF, hlastNil, hdropF, List.map, List.contains, List.elem,
    String.reduceEq, reduceIte, ne_eq, lookupA, upsertA, decide_True, decide_False,
    not_false_eq_true, not_true_eq_false,
    Bool.false_eq_true, Bool.true_eq_false, List.nil_append, List.append_nil,
    List.cons_append, List.singleton_append, and_self, and_true, true_and,
    if_true, if_false, String.reduceBEq, beq_self_eq_true, List.append_eq]
  rw [filterOperationStep.eq_def]
  simp only [hOpsListS, hcVFS, hcVFragsS, heval1, heval2, heval3, hcVF, hcVFrags, hcompQ, hOpsList, hop1sel, hop2sel,
    hop1op, hop2op, hop1vd, hop2vd, hfragname, hfragcond, hfragsel, hlookv,
    unionStr, dedupKeepFirst, List.foldl, List.filterMap, List.filter, List.find?,
    hlastF, hlastNil, hdropF, List.map, List.contains, List.elem,
    String.reduceEq, reduceIte, ne_eq, lookupA, upsertA, decide_True, decide_False,
    not_false_eq_true, not_true_eq_false,
    Bool.false_eq_true, Bool.true_eq_false, List.nil_append, List.append_nil,
    List.cons_append, List.singleton_append, and_self, and_true, true_and,
    if_true, if_false, String.reduceBEq, beq_self_eq_true, List.append_eq]
  rw [collectFragmentVariables.eq_def]
  simp only [heval1, heval2, heval3, hcVF, hcVFrags, hcompQ, hOpsList, hop1sel, hop2sel,
    hop1op, hop2op, hop1vd, hop2vd, hfragname, hfragcond, hfragsel, hlookv,
    unionStr, dedupKeepFirst, List.foldl, List.filterMap, List.filter, List.find?,
    hlastF, hlastNil, hdropF, List.map, List.contains, List.elem,
    String.reduceEq, reduceIte, ne_eq, lookupA, upsertA, decide_True, decide_False,
    not_false_eq_true, not_true_eq_false,
    Bool.false_eq_true, Bool.true_eq_false, List.nil_append, List.append_nil,
    List.cons_append, List.singleton_append, and_self, and_true, true_and,
    if_true, if_false, String.reduceBEq, beq_self_eq_true, List.append_eq]
  rw [collectFragmentVariables.eq_def]
  simp only [heval1, heval2, heval3, hcVF, hcVFrags, hcompQ, hOpsList, hop1sel, hop2sel,
    hop1op, hop2op, hop1vd, hop2vd, hfragname, hfragcond, hfragsel, hlookv,
    unionStr, dedupKeepFirst, List.foldl, List.filterMap, List.filter, List.find?,
    hlastF, hlastNil, hdropF, List.map, List.contains, List.elem,
    String.reduceEq, reduceIte, ne_eq, lookupA, upsertA, decide_True, decide_False,
    not_false_eq_true, not_true_eq_false,
    Bool.false_eq_true, Bool.true_eq_false, List.nil_append, List.append_nil,
    List.cons_append, List.singleton_append, and_self, and_true, true_and,
    if_true, if_false, String.reduceBEq, beq_self_eq_true, List.append_eq]
  rfl

theorem cNamesS : ∀ fr ∈ DocumentM.fragments cDocS, fr.name ≠ "" := by
  intro fr hfr
  rw [show DocumentM.fragments cDocS = [cFragF] from rfl] at hfr
  rcases List.mem_singleton.mp hfr with rfl
  decide

/-- C4 counterexample (original claim): on the two-operation document
`cDoc`, FilterToSchema keeps operation 1's variable definition `$v` even
though no selection of the output document uses any variable - the fragment
`F` that used `$v` was dropped by the `newFragments` overwrite - so "unused
variable definitions are dropped" fails as stated for general documents. -/
theorem filterToSchema_keeps_unused_variable_definition :
    filterToSchema 4 cS cDoc cVars = some (cOut1, [("v", "3")])
    ∧ cOut1.operations.map OperationM.variableDefinitions = [["v"], []]
    ∧ cOut1.operations.map (fun o => varsOfSels o.selectionSet) = [[], []]
    ∧ cOut1.fragments = [] := by
  refine ⟨cEval1, by rfl, ?_, by rfl⟩
  rw [hOut1ops]
  simp only [List.map, varsOfSels, varsOfSel, varsOfArgs, List.filterMap,
    List.append_nil, List.nil_append]

/-- C5: FilterToSchema is not idempotent.  On the two-operation document
`cDoc` the first pass keeps the spread `...F` and the variable definition
`$v` in operation 1 but loses the fragment definition `F` (the
`newFragments` overwrite); re-running FilterToSchema on its own output then
drops both, so the outputs differ: operation 1's variable definitions go
from `["v"]` to `[]`. -/
theorem filterToSchema_not_idempotent :
    filterToSchema 4 cS cDoc cVars = some (cOut1, [("v", "3")])
    ∧ filterToSchema 4 cS cOut1 [("v", "3")] = some (cOut2, [])
    ∧ cOut1.operations.map OperationM.variableDefinitions = [["v"], []]
    ∧ cOut2.operations.map OperationM.variableDefinitions = [[], []] :=
  ⟨cEval1, cEval2, by rfl, by rfl⟩

/-- Witness for the amended C4 theorem at the single-operation document
`cDocS`: the hypotheses hold by evaluation and the conclusions follow by
applying the theorem. -/
theorem filterToSchema_single_op_in_schema_witness :
    (DocumentM.operations cDocS = [cOp1])
    ∧ (∀ fr ∈ DocumentM.fragments cDocS, fr.name ≠ "")
    ∧ filterToSchema 4 cS cDocS cVars = some (cOutS, [("v", "3")])
    ∧ ((∀ o2 ∈ cOutS.operations,
          ∃ rt, rootTypeFor cS o2.operation = some rt
            ∧ selsOutOk cS (docVF cS cDocS) rt o2.selectionSet = true)
       ∧ (∀ fr2 ∈ cOutS.fragments,
            isComposite cS fr2.typeCondition = true
            ∧ selsOutOk cS (docVF cS cDocS) fr2.typeCondition fr2.selectionSet = true)
       ∧ (∀ o2 ∈ cOutS.operations, ∀ v ∈ o2.variableDefinitions,
            v ∈ varsOfSels o2.selectionSet
            ∨ ∃ fr2 ∈ cOutS.fragments, v ∈ varsOfSels fr2.selectionSet)) :=
  ⟨hOpsListS, cNamesS, cEvalS,
    filterToSchema_single_op_in_schema 4 cS cDocS cVars cOutS [("v", "3")] cOp1
      hOpsListS cNamesS cEvalS⟩
